import Mathlib

/-!
# Verification of the D&D character sheet document model and history engine

A shallow embedding of `src/character-sheet.ts`. JSON-like runtime values are
modelled by `Jval` (JavaScript `undefined` is modelled as `Option.none` at the
points where field lookup can miss; JSON values themselves never contain
`undefined`). The migration pipeline (`loadData` steps 1-3 followed by
`validateAndMigrateData` / `mergeWithDefaults`), the undo/redo history stack
(`pushHistory` / `undo` / `redo`), the ability-score arithmetic
(`calculateTotalAbilityScore` / `calculateAbilityModifier`), the armor-class
display (`updateDisplayedArmorClass`) and the Drive-save flow
(`saveToGoogleDrive`) are translated from the source and their stated
properties proved.
-/

namespace DndSheet

/-- JSON-like JavaScript runtime values. Numbers are modelled as integers
(the migration logic performs no fractional arithmetic). Objects are ordered
association lists, mirroring JavaScript's own-property insertion order. -/
inductive Jval where
  | jnull
  | jbool (b : Bool)
  | jnum (n : Int)
  | jstr (s : String)
  | jarr (xs : List Jval)
  | jobj (fs : List (String × Jval))
  deriving Repr

open Jval

/-- `v === null` (strict equality against the `null` literal). -/
def Jval.isNull : Jval → Bool
  | jnull => true
  | _ => false

/-- `Array.isArray(v)`. -/
def Jval.isArr : Jval → Bool
  | jarr _ => true
  | _ => false

/-- JavaScript truthiness for our value model: `null`, `false`, `0` and `""`
are falsy; arrays and objects are always truthy. -/
def truthy : Jval → Bool
  | jnull => false
  | jbool b => b
  | jnum n => n ≠ 0
  | jstr s => s ≠ ""
  | jarr _ => true
  | jobj _ => true

/-- Truthiness of a possibly-`undefined` value (`undefined` is falsy). -/
def otruthy : Option Jval → Bool
  | none => false
  | some v => truthy v

/-- First-match lookup in an object's field list (JavaScript objects have
unique keys, for which first-match and last-match agree). -/
def lookupField : List (String × Jval) → String → Option Jval
  | [], _ => none
  | (k', v) :: rest, k => if k' = k then some v else lookupField rest k

/-- Property read `v[k]` for the (non-numeric, non-`length`) keys the
migrator uses: on objects it is field lookup, on primitives and arrays it
yields `undefined`.  Reads on `null` (which throw in JavaScript) are handled
separately by `jgetE`. -/
def jget : Jval → String → Option Jval
  | jobj fs, k => lookupField fs k
  | _, _ => none

/-- Property read that models the JavaScript `TypeError` thrown when reading
a property of `null`. -/
def jgetE : Jval → String → Except Unit (Option Jval)
  | jnull, _ => .error ()
  | v, k => .ok (jget v k)

/-- Own enumerable string-keyed entries, as used by both `Object.entries`
and object spread `{...v}`: objects give their fields, strings and arrays
give index-keyed entries, other primitives give nothing. -/
def entriesOf : Jval → List (String × Jval)
  | jobj fs => fs
  | jstr s => (s.toList.enum.map fun p => (toString p.1, jstr (String.singleton p.2)))
  | jarr xs => (xs.enum.map fun p => (toString p.1, p.2))
  | _ => []

/-- `a || b` on a possibly-`undefined` left operand. -/
def jorElse (a : Option Jval) (b : Jval) : Jval :=
  match a with
  | some v => if truthy v then v else b
  | none => b

/-- `a ?? b` (nullish coalescing) on a possibly-`undefined` left operand. -/
def jnullish (a : Option Jval) (b : Jval) : Jval :=
  match a with
  | some v => if v.isNull then b else v
  | none => b

/-- The `mergeDefined` helper of `mergeWithDefaults`: take the saved value
unless it is `undefined` or `null`. -/
def mergeDefined (defaultVal : Jval) (savedVal : Option Jval) : Jval :=
  match savedVal with
  | some v => if v.isNull then defaultVal else v
  | none => defaultVal

/-- Object spread `{...a, ...b}`: `a`'s keys in order (values overridden by
`b` where present), then `b`'s keys not already in `a`, in order. -/
def jmerge (a b : List (String × Jval)) : List (String × Jval) :=
  (a.map fun kv => (kv.1, (lookupField b kv.1).getD kv.2)) ++
    b.filter fun kv => (lookupField a kv.1).isNone

/-- Property write `obj[k] = v`: update the first occurrence in place,
append when the key is new (JavaScript preserves insertion order on update).
-/
def setField : List (String × Jval) → String → Jval → List (String × Jval)
  | [], k, v => [(k, v)]
  | (k', v') :: rest, k, v =>
    if k' = k then (k', v) :: rest else (k', v') :: setField rest k v

/-- Drop every occurrence of the given keys (rest destructuring
`const {concentration, material, ...rest} = spell`). -/
def removeKeys (fs : List (String × Jval)) (ks : List String) : List (String × Jval) :=
  fs.filter fun kv => !(ks.contains kv.1)

/-! ## The Migrator (`loadData` steps and `mergeWithDefaults`) -/

/-- The `skillNames` lookup table of the legacy skill-map migration. -/
def skillNames : List (String × String) :=
  [("athletics", "Athletics"), ("acrobatics", "Acrobatics"),
   ("sleight", "Sleight of Hand"), ("stealth", "Stealth"),
   ("arcana", "Arcana"), ("history", "History"),
   ("investigation", "Investigation"), ("nature", "Nature"),
   ("religion", "Religion"), ("animal", "Animal Handling"),
   ("insight", "Insight"), ("medicine", "Medicine"),
   ("perception", "Perception"), ("survival", "Survival"),
   ("deception", "Deception"), ("intimidation", "Intimidation"),
   ("performance", "Performance"), ("persuasion", "Persuasion")]

/-- The `abilityMap` lookup table of the legacy skill-map migration. -/
def abilityMap : List (String × String) :=
  [("athletics", "str"), ("acrobatics", "dex"),
   ("sleight", "dex"), ("stealth", "dex"),
   ("arcana", "int"), ("history", "int"),
   ("investigation", "int"), ("nature", "int"),
   ("religion", "int"), ("animal", "wis"),
   ("insight", "wis"), ("medicine", "wis"),
   ("perception", "wis"), ("survival", "wis"),
   ("deception", "cha"), ("intimidation", "cha"),
   ("performance", "cha"), ("persuasion", "cha")]

/-- First-match lookup in a string table (`skillNames[key]`). -/
def lookupStr : List (String × String) → String → Option String
  | [], _ => none
  | (k', v) :: rest, k => if k' = k then some v else lookupStr rest k

/-- One entry of the legacy skill-map migration:
`{id: (index+1).toString(), name: skillNames[key] || key,
  ability: abilityMap[key] || 'str', modifier: '+0'}`
(the table values are non-empty strings, hence truthy, so `||` reduces to
defaulting on a missed lookup). -/
def skillMapEntry (index : Nat) (key : String) : Jval :=
  jobj [("id", jstr (toString (index + 1))),
        ("name", jstr ((lookupStr skillNames key).getD key)),
        ("ability", jstr ((lookupStr abilityMap key).getD "str")),
        ("modifier", jstr "+0")]

/-- `Object.entries(oldSkills).map(([key], index) => ...)` of the legacy
skill-map migration in `loadData`. -/
def skillMapMigrate (entries : List (String × Jval)) : List Jval :=
  entries.enum.map fun p => skillMapEntry p.1 p.2.1

/-- `loadData` step 1: if `skills` is present, truthy and not an array,
replace it with the migrated skill list. -/
def migrateSkillShape (fs : List (String × Jval)) : List (String × Jval) :=
  match lookupField fs "skills" with
  | some v =>
    if truthy v && !v.isArr then
      setField fs "skills" (jarr (skillMapMigrate (entriesOf v)))
    else fs
  | none => fs

/-- `loadData` step 2 for one key: if the value is falsy, missing or not an
array, set it to `[]`. -/
def coerceArrayField (fs : List (String × Jval)) (k : String) : List (String × Jval) :=
  match lookupField fs k with
  | some v => if truthy v && v.isArr then fs else setField fs k (jarr [])
  | none => setField fs k (jarr [])

/-- Left-to-right `.map` over an array whose callback may throw: the first
exception aborts the whole map. -/
def exceptMapM (f : α → Except Unit β) : List α → Except Unit (List β)
  | [] => .ok []
  | x :: xs =>
    match f x with
    | .error e => .error e
    | .ok y =>
      match exceptMapM f xs with
      | .error e => .error e
      | .ok ys => .ok (y :: ys)

/-- `loadData` step 3 on one spell entry. Reading a property of a `null`
entry throws (propagated as `Except.error`, caught by `loadData`'s handler).
If either retired field `concentration`/`material` is present, rebuild the
entry without them and with `duration: spell.duration || ''`; otherwise add
`duration: ''` when `duration` is missing; otherwise pass through. -/
def migrateSpell (spell : Jval) : Except Unit Jval :=
  match jgetE spell "concentration" with
  | .error e => .error e
  | .ok c =>
    if c.isSome ∨ (jget spell "material").isSome then
      .ok (jobj (setField (removeKeys (entriesOf spell) ["concentration", "material"])
        "duration" (jorElse (jget spell "duration") (jstr ""))))
    else if (jget spell "duration").isNone then
      .ok (jobj (entriesOf spell ++ [("duration", jstr "")]))
    else
      .ok spell

/-- `loadData` step 3: map the spell migration over the `spells` array
(after step 2 the field is always an array). -/
def migrateSpellField (fs : List (String × Jval)) : Except Unit (List (String × Jval)) :=
  match lookupField fs "spells" with
  | some (jarr xs) =>
    match exceptMapM migrateSpell xs with
    | .error e => .error e
    | .ok xs' => .ok (setField fs "spells" (jarr xs'))
  | _ => .ok fs

/-- `loadData` steps 1-3 on an already-unwrapped character payload that is a
plain object. -/
def loadDataSteps (fs : List (String × Jval)) : Except Unit (List (String × Jval)) :=
  migrateSpellField (coerceArrayField (coerceArrayField (migrateSkillShape fs) "weapons") "spells")

/-! ## The canonical in-memory document (`DnDCharacterData`) -/

/-- One ability-score breakdown `{base, race, asi, feat, magic}` as built by
`mergeAbilityScores`. The merge performs no type validation, so the field
values are arbitrary runtime values. -/
structure Breakdown where
  base : Jval
  race : Jval
  asi : Jval
  feat : Jval
  magic : Jval
  deriving Repr

/-- The six fixed ability keys. -/
inductive AbilityKey where
  | str | dex | con | int | wis | cha
  deriving Repr, DecidableEq

/-- The ability-score set: one breakdown per fixed key (the merge always
constructs exactly these six). -/
structure AbilityScoresJ where
  str : Breakdown
  dex : Breakdown
  con : Breakdown
  int : Breakdown
  wis : Breakdown
  cha : Breakdown
  deriving Repr

def AbilityScoresJ.get (a : AbilityScoresJ) : AbilityKey → Breakdown
  | .str => a.str
  | .dex => a.dex
  | .con => a.con
  | .int => a.int
  | .wis => a.wis
  | .cha => a.cha

/-- One normalized skill entry `{id, name, ability, modifier}` as built by
`normalizeSkills`. `id` and `name` are copied verbatim and may be
`undefined` (`none`) when the source entry lacks them. -/
structure SkillEntry where
  id : Option Jval
  name : Option Jval
  ability : Jval
  modifier : Jval
  deriving Repr

/-- The canonical document produced by `mergeWithDefaults`: the fixed record
shape of `DnDCharacterData`. Scalar fields hold the merged runtime value;
the shallow-merged sub-records (`abilityModifiers`, `savingThrows`,
`deathSaves`, `spellSlots`, `coins`) hold their field lists (the spread may
retain extra saved keys); `weapons`/`spells` are taken wholesale. -/
structure Doc where
  characterName : Jval
  playerName : Jval
  race : Jval
  charClass : Jval
  level : Jval
  background : Jval
  subclass : Jval
  alignment : Jval
  experience : Jval
  abilityScores : AbilityScoresJ
  abilityModifiers : List (String × Jval)
  proficiencyBonus : Jval
  passivePerception : Jval
  savingThrows : List (String × Jval)
  armorClass : Jval
  shield : Jval
  initiative : Jval
  speed : Jval
  size : Jval
  heroicInspiration : Jval
  hitPointsMax : Jval
  hitPointsCurrent : Jval
  hitPointsTemp : Jval
  hitDice : Jval
  hitDiceSpent : Jval
  deathSaves : List (String × Jval)
  skills : List SkillEntry
  weapons : Jval
  spells : Jval
  features : Jval
  feats : Jval
  speciesTraits : Jval
  spellcastingAbility : Jval
  spellSaveDC : Jval
  spellAttackBonus : Jval
  spellSlots : List (String × Jval)
  knownSpells : Jval
  equipment : Jval
  equipmentDetail : Jval
  armorProficiencies : Jval
  weaponProficiencies : Jval
  toolProficiencies : Jval
  languages : Jval
  coins : List (String × Jval)
  backstory : Jval
  appearance : Jval
  notes : Jval
  characterImageFileId : Jval
  deriving Repr

/-- The default breakdown `{base: 10, race: 0, asi: 0, feat: 0, magic: 0}`. -/
def defaultBreakdown : Breakdown :=
  ⟨jnum 10, jnum 0, jnum 0, jnum 0, jnum 0⟩

/-- Default ability-modifier map (all `"+0"`). -/
def defaultAbilityModifiers : List (String × Jval) :=
  [("str", jstr "+0"), ("dex", jstr "+0"), ("con", jstr "+0"),
   ("int", jstr "+0"), ("wis", jstr "+0"), ("cha", jstr "+0")]

/-- Default saving throws (`con` proficient, the Fighter default). -/
def defaultSavingThrows : List (String × Jval) :=
  [("str", jbool false), ("dex", jbool false), ("con", jbool true),
   ("int", jbool false), ("wis", jbool false), ("cha", jbool false)]

/-- Default death saves (three unchecked successes and failures). -/
def defaultDeathSaves : List (String × Jval) :=
  [("success", jarr [jbool false, jbool false, jbool false]),
   ("failure", jarr [jbool false, jbool false, jbool false])]

/-- Default spell slots (`level1`..`level9`, each `{current: 0, max: 0}`). -/
def defaultSpellSlots : List (String × Jval) :=
  (List.range 9).map fun i =>
    ("level" ++ toString (i + 1), jobj [("current", jnum 0), ("max", jnum 0)])

/-- Default coins (five denominations, all zero). -/
def defaultCoins : List (String × Jval) :=
  [("cp", jnum 0), ("sp", jnum 0), ("ep", jnum 0), ("gp", jnum 0), ("pp", jnum 0)]

/-- `getDefaultData()`. -/
def defaultData : Doc where
  characterName := jstr ""
  playerName := jstr ""
  race := jstr ""
  charClass := jstr ""
  level := jnum 1
  background := jstr ""
  subclass := jstr ""
  alignment := jstr ""
  experience := jnum 0
  abilityScores :=
    ⟨defaultBreakdown, defaultBreakdown, defaultBreakdown,
     defaultBreakdown, defaultBreakdown, defaultBreakdown⟩
  abilityModifiers := defaultAbilityModifiers
  proficiencyBonus := jnum 2
  passivePerception := jnum 10
  savingThrows := defaultSavingThrows
  armorClass := jnum 10
  shield := jbool false
  initiative := jnum 0
  speed := jnum 30
  size := jstr ""
  heroicInspiration := jbool false
  hitPointsMax := jnum 0
  hitPointsCurrent := jnum 0
  hitPointsTemp := jnum 0
  hitDice := jstr ""
  hitDiceSpent := jnum 0
  deathSaves := defaultDeathSaves
  skills := []
  weapons := jarr []
  spells := jarr []
  features := jstr ""
  feats := jstr ""
  speciesTraits := jstr ""
  spellcastingAbility := jstr ""
  spellSaveDC := jnum 0
  spellAttackBonus := jstr "+0"
  spellSlots := defaultSpellSlots
  knownSpells := jstr ""
  equipment := jstr ""
  equipmentDetail := jstr ""
  armorProficiencies := jstr ""
  weaponProficiencies := jstr ""
  toolProficiencies := jstr ""
  languages := jstr ""
  coins := defaultCoins
  backstory := jstr ""
  appearance := jstr ""
  notes := jstr ""
  characterImageFileId := jnull

/-! ## `mergeWithDefaults` and its helpers -/

/-- `typeof (savedScores[ability]) === 'number'` check used by the legacy
ability-score detection. -/
def Jval.isNum : Jval → Bool
  | jnum _ => true
  | _ => false

/-- `mergeAbilityScores(defaults.abilityScores, savedScores)` for one key of
the legacy branch: `{base: savedScores[ability] || 10, race: 0, ...}`. -/
def legacyBreakdown (savedScores : Jval) (key : String) : Breakdown :=
  ⟨jorElse (jget savedScores key) (jnum 10), jnum 0, jnum 0, jnum 0, jnum 0⟩

/-- `mergeAbilityScores` for one key of the breakdown branch:
each of the five fields is `savedScores?.[ability]?.[field] ?? default`. -/
def mergedBreakdown (savedScores : Option Jval) (key : String) : Breakdown :=
  let fld := fun (f : String) (d : Jval) =>
    jnullish (savedScores.bind fun sc => (jget sc key).bind fun b => jget b f) d
  ⟨fld "base" (jnum 10), fld "race" (jnum 0), fld "asi" (jnum 0),
   fld "feat" (jnum 0), fld "magic" (jnum 0)⟩

/-- `mergeAbilityScores(defaults.abilityScores, savedScores)`: if the saved
value is truthy and its `str` member is a number, convert the legacy
bare-number shape; otherwise merge field-by-field with `??` against the
defaults. -/
def mergeAbilityScores (savedScores : Option Jval) : AbilityScoresJ :=
  match savedScores with
  | some sc =>
    if truthy sc && (jget sc "str").elim false Jval.isNum then
      ⟨legacyBreakdown sc "str", legacyBreakdown sc "dex", legacyBreakdown sc "con",
       legacyBreakdown sc "int", legacyBreakdown sc "wis", legacyBreakdown sc "cha"⟩
    else
      ⟨mergedBreakdown savedScores "str", mergedBreakdown savedScores "dex",
       mergedBreakdown savedScores "con", mergedBreakdown savedScores "int",
       mergedBreakdown savedScores "wis", mergedBreakdown savedScores "cha"⟩
  | none =>
    ⟨mergedBreakdown none "str", mergedBreakdown none "dex", mergedBreakdown none "con",
     mergedBreakdown none "int", mergedBreakdown none "wis", mergedBreakdown none "cha"⟩

/-- `normalizeSkills` on one entry:
`{id: s.id, name: s.name, ability: s.ability || 'str', modifier: s.modifier ?? '+0'}`.
Reading a property of a `null` entry throws. -/
def normalizeSkillEntry (s : Jval) : Except Unit SkillEntry :=
  match jgetE s "id" with
  | .error e => .error e
  | .ok i =>
    .ok ⟨i, jget s "name", jorElse (jget s "ability") (jstr "str"),
         jnullish (jget s "modifier") (jstr "+0")⟩

/-- `normalizeSkills(skills)`: map over the entries. A non-array argument
has no `.map` method and throws. -/
def normalizeSkills (skills : Jval) : Except Unit (List SkillEntry) :=
  match skills with
  | jarr xs => exceptMapM normalizeSkillEntry xs
  | _ => .error ()

/-- Shallow sub-record merge `{...defaultMap, ...(saved || {})}` used for
`abilityModifiers`, `savingThrows`, `deathSaves`, `spellSlots` and `coins`.
A truthy non-object saved value contributes its own enumerable entries. -/
def mergeMap (defaultMap : List (String × Jval)) (saved : Option Jval) : List (String × Jval) :=
  jmerge defaultMap (entriesOf (jorElse saved (jobj [])))

/-- `mergeWithDefaults(data)`: build the canonical document from the saved
object's fields, preferring defined (non-nullish) saved values.
`normalizeSkills` may throw, which aborts the merge. -/
def mergeWithDefaults (data : Jval) : Except Unit Doc :=
  let g := jget data
  match normalizeSkills (jorElse (g "skills") (jarr [])) with
  | .error e => .error e
  | .ok skills => .ok {
    characterName := mergeDefined (jstr "") (g "characterName")
    playerName := mergeDefined (jstr "") (g "playerName")
    race := mergeDefined (jstr "") (g "race")
    charClass := mergeDefined (jstr "") (g "class")
    level := mergeDefined (jnum 1) (g "level")
    background := mergeDefined (jstr "") (g "background")
    subclass := mergeDefined (jstr "") (g "subclass")
    alignment := mergeDefined (jstr "") (g "alignment")
    experience := mergeDefined (jnum 0) (g "experience")
    abilityScores :=
      mergeAbilityScores
        (if otruthy (g "abilityScores") then g "abilityScores" else g "abilities")
    abilityModifiers := mergeMap defaultAbilityModifiers (g "abilityModifiers")
    proficiencyBonus := mergeDefined (jnum 2) (g "proficiencyBonus")
    passivePerception := mergeDefined (jnum 10) (g "passivePerception")
    savingThrows := mergeMap defaultSavingThrows (g "savingThrows")
    armorClass := mergeDefined (jnum 10) (g "armorClass")
    shield := mergeDefined (jbool false) (g "shield")
    initiative := mergeDefined (jnum 0) (g "initiative")
    speed := mergeDefined (jnum 30) (g "speed")
    size := mergeDefined (jstr "") (g "size")
    heroicInspiration := mergeDefined (jbool false) (g "heroicInspiration")
    hitPointsMax := mergeDefined (jnum 0) (g "hitPointsMax")
    hitPointsCurrent := mergeDefined (jnum 0) (g "hitPointsCurrent")
    hitPointsTemp := mergeDefined (jnum 0) (g "hitPointsTemp")
    hitDice := mergeDefined (jstr "") (g "hitDice")
    hitDiceSpent := mergeDefined (jnum 0) (g "hitDiceSpent")
    deathSaves := mergeMap defaultDeathSaves (g "deathSaves")
    skills := skills
    weapons := jorElse (g "weapons") (jarr [])
    spells := jorElse (g "spells") (jarr [])
    features := mergeDefined (jstr "") (g "features")
    feats := mergeDefined (jstr "") (g "feats")
    speciesTraits := mergeDefined (jstr "") (g "speciesTraits")
    spellcastingAbility := mergeDefined (jstr "") (g "spellcastingAbility")
    spellSaveDC := mergeDefined (jnum 0) (g "spellSaveDC")
    spellAttackBonus := mergeDefined (jstr "+0") (g "spellAttackBonus")
    spellSlots := mergeMap defaultSpellSlots (g "spellSlots")
    knownSpells := mergeDefined (jstr "") (g "knownSpells")
    equipment := mergeDefined (jstr "") (g "equipment")
    equipmentDetail := mergeDefined (jstr "") (g "equipmentDetail")
    armorProficiencies := mergeDefined (jstr "") (g "armorProficiencies")
    weaponProficiencies := mergeDefined (jstr "") (g "weaponProficiencies")
    toolProficiencies := mergeDefined (jstr "") (g "toolProficiencies")
    languages := mergeDefined (jstr "") (g "languages")
    coins := mergeMap defaultCoins (g "coins")
    backstory := mergeDefined (jstr "") (g "backstory")
    appearance := mergeDefined (jstr "") (g "appearance")
    notes := mergeDefined (jstr "") (g "notes")
    characterImageFileId := mergeDefined jnull (g "characterImageFileId") }

/-- `validateAndMigrateData(data)`: non-objects (and `null`, which is falsy)
are rejected and, like any error thrown during the merge, fall back to the
default document. In our value model the structurally plausible values are
objects and arrays (`typeof` is `'object'` and they are truthy). -/
def validateAndMigrateData (data : Jval) : Doc :=
  match data with
  | jobj fs => (mergeWithDefaults (jobj fs)).toOption.getD defaultData
  | jarr xs => (mergeWithDefaults (jarr xs)).toOption.getD defaultData
  | _ => defaultData

/-- The full Migrator `normalize(raw)`: `loadData` steps 1-3 followed by
`validateAndMigrateData`. For non-object input the pipeline ends in the
default document: primitives and `null` either throw on the step-2 property
write (module code is strict) or on the envelope probe, and the catch
handler falls back to defaults; a JSON array carries no named properties,
so every merge step falls back to its default as well. -/
def normalize (raw : Jval) : Doc :=
  match raw with
  | jobj fs =>
    match loadDataSteps fs with
    | .ok fs' => validateAndMigrateData (jobj fs')
    | .error _ => defaultData
  | _ => defaultData

/-! ## Serializing a document back to a runtime value

Feeding a normalized document through the Migrator again (as the
idempotence property does) passes it as a plain object; `docToJson` is that
object. A skill entry whose `id`/`name` was `undefined` carries the key
with an `undefined` value in memory and loses it on a JSON round trip; the
two are indistinguishable to every operation the Migrator performs, so the
serialization omits such keys. -/

def breakdownToJson (b : Breakdown) : Jval :=
  jobj [("base", b.base), ("race", b.race), ("asi", b.asi),
        ("feat", b.feat), ("magic", b.magic)]

def abilityScoresToJson (a : AbilityScoresJ) : Jval :=
  jobj [("str", breakdownToJson a.str), ("dex", breakdownToJson a.dex),
        ("con", breakdownToJson a.con), ("int", breakdownToJson a.int),
        ("wis", breakdownToJson a.wis), ("cha", breakdownToJson a.cha)]

def skillEntryToJson (s : SkillEntry) : Jval :=
  jobj ((s.id.elim [] fun v => [("id", v)]) ++
        (s.name.elim [] fun v => [("name", v)]) ++
        [("ability", s.ability), ("modifier", s.modifier)])

def docFields (d : Doc) : List (String × Jval) :=
  [("characterName", d.characterName),
        ("playerName", d.playerName),
        ("race", d.race),
        ("class", d.charClass),
        ("level", d.level),
        ("background", d.background),
        ("subclass", d.subclass),
        ("alignment", d.alignment),
        ("experience", d.experience),
        ("abilityScores", abilityScoresToJson d.abilityScores),
        ("abilityModifiers", jobj d.abilityModifiers),
        ("proficiencyBonus", d.proficiencyBonus),
        ("passivePerception", d.passivePerception),
        ("savingThrows", jobj d.savingThrows),
        ("armorClass", d.armorClass),
        ("shield", d.shield),
        ("initiative", d.initiative),
        ("speed", d.speed),
        ("size", d.size),
        ("heroicInspiration", d.heroicInspiration),
        ("hitPointsMax", d.hitPointsMax),
        ("hitPointsCurrent", d.hitPointsCurrent),
        ("hitPointsTemp", d.hitPointsTemp),
        ("hitDice", d.hitDice),
        ("hitDiceSpent", d.hitDiceSpent),
        ("deathSaves", jobj d.deathSaves),
        ("skills", jarr (d.skills.map skillEntryToJson)),
        ("weapons", d.weapons),
        ("spells", d.spells),
        ("features", d.features),
        ("feats", d.feats),
        ("speciesTraits", d.speciesTraits),
        ("spellcastingAbility", d.spellcastingAbility),
        ("spellSaveDC", d.spellSaveDC),
        ("spellAttackBonus", d.spellAttackBonus),
        ("spellSlots", jobj d.spellSlots),
        ("knownSpells", d.knownSpells),
        ("equipment", d.equipment),
        ("equipmentDetail", d.equipmentDetail),
        ("armorProficiencies", d.armorProficiencies),
        ("weaponProficiencies", d.weaponProficiencies),
        ("toolProficiencies", d.toolProficiencies),
        ("languages", d.languages),
        ("coins", jobj d.coins),
        ("backstory", d.backstory),
        ("appearance", d.appearance),
        ("notes", d.notes),
        ("characterImageFileId", d.characterImageFileId)]

/-- The in-memory document, as the plain object a second Migrator pass
receives. -/
def docToJson (d : Doc) : Jval :=
  jobj (docFields d)

/-! ## Lemmas about the JavaScript-object operations -/

theorem lookupField_append (xs ys : List (String × Jval)) (k : String) :
    lookupField (xs ++ ys) k =
      match lookupField xs k with
      | some v => some v
      | none => lookupField ys k := by
  induction xs with
  | nil => simp [lookupField]
  | cons kv rest ih =>
    obtain ⟨k', v⟩ := kv
    by_cases h : k' = k <;> simp [lookupField, h, ih]

theorem lookupField_map_override (xs : List (String × Jval)) (f : String → Jval → Jval)
    (k : String) :
    lookupField (xs.map fun kv => (kv.1, f kv.1 kv.2)) k = (lookupField xs k).map (f k) := by
  induction xs with
  | nil => simp [lookupField]
  | cons kv rest ih =>
    obtain ⟨k', v⟩ := kv
    by_cases h : k' = k
    · subst h; simp [lookupField]
    · simp [lookupField, h, ih]

theorem lookupField_filter_key (xs : List (String × Jval)) (p : String → Bool) (k : String) :
    lookupField (xs.filter fun kv => p kv.1) k =
      if p k then lookupField xs k else none := by
  induction xs with
  | nil => simp [lookupField]
  | cons kv rest ih =>
    obtain ⟨k', v⟩ := kv
    by_cases h : k' = k
    · subst h
      by_cases hp : p k' <;> simp [lookupField, hp, ih]
    · by_cases hp : p k' <;> simp [lookupField, h, hp, ih]

theorem lookupField_jmerge (a b : List (String × Jval)) (k : String) :
    lookupField (jmerge a b) k =
      match lookupField a k with
      | some v => some ((lookupField b k).getD v)
      | none => lookupField b k := by
  unfold jmerge
  rw [lookupField_append]
  rw [lookupField_map_override a (fun k' v => (lookupField b k').getD v) k]
  rw [lookupField_filter_key b (fun k' => (lookupField a k').isNone) k]
  cases h : lookupField a k <;> simp [h]

theorem lookupField_setField (l : List (String × Jval)) (k k' : String) (v : Jval) :
    lookupField (setField l k v) k' =
      if k = k' then some v else lookupField l k' := by
  induction l with
  | nil =>
    by_cases h : k = k' <;> simp [setField, lookupField, h]
  | cons kv rest ih =>
    obtain ⟨k0, v0⟩ := kv
    by_cases h0 : k0 = k
    · subst h0
      simp only [setField, if_pos rfl]
      by_cases h : k0 = k' <;> simp [lookupField, h]
    · simp only [setField, if_neg h0]
      by_cases h : k0 = k'
      · subst h
        have hkk : ¬ (k = k0) := fun he => h0 he.symm
        simp [lookupField, hkk]
      · simp [lookupField, h, ih]

theorem setField_self (l : List (String × Jval)) (k : String) (v : Jval)
    (h : lookupField l k = some v) : setField l k v = l := by
  induction l with
  | nil => simp [lookupField] at h
  | cons kv rest ih =>
    obtain ⟨k0, v0⟩ := kv
    by_cases h0 : k0 = k
    · subst h0
      simp [lookupField] at h
      simp [setField, h]
    · simp [lookupField, h0] at h
      simp [setField, h0, ih h]

theorem lookupField_eq_none (l : List (String × Jval)) (k : String)
    (h : ∀ kv ∈ l, kv.1 ≠ k) : lookupField l k = none := by
  induction l with
  | nil => rfl
  | cons kv rest ih =>
    have h1 := h kv (List.mem_cons_self kv rest)
    simp [lookupField, h1]
    exact ih fun kv' hm => h kv' (List.mem_cons_of_mem kv hm)

theorem lookupField_of_mem_nodup (l : List (String × Jval)) (k : String) (v : Jval)
    (hnd : (l.map Prod.fst).Nodup) (hm : (k, v) ∈ l) : lookupField l k = some v := by
  induction l with
  | nil => simp at hm
  | cons kv rest ih =>
    obtain ⟨k0, v0⟩ := kv
    simp only [List.map_cons, List.nodup_cons] at hnd
    rcases List.mem_cons.mp hm with h | h
    · injection h with hk hv
      subst hk; subst hv
      simp [lookupField]
    · have hne : k0 ≠ k := by
        intro he; subst he
        exact hnd.1 (List.mem_map.mpr ⟨(k0, v), h, rfl⟩)
      simp [lookupField, hne, ih hnd.2 h]

/-- Key fact for the idempotence of the shallow sub-record merges:
re-merging a merged map against the same defaults changes nothing. -/
theorem jmerge_idem (d m : List (String × Jval)) (hnd : (d.map Prod.fst).Nodup) :
    jmerge d (jmerge d m) = jmerge d m := by
  have hmap : (d.map fun kv => (kv.1, (lookupField (jmerge d m) kv.1).getD kv.2))
      = d.map fun kv => (kv.1, (lookupField m kv.1).getD kv.2) := by
    apply List.map_congr_left
    intro kv hm
    obtain ⟨k, v⟩ := kv
    have hlk := lookupField_of_mem_nodup d k v hnd hm
    rw [lookupField_jmerge, hlk]
    simp
  have hfilt : (jmerge d m).filter (fun kv => (lookupField d kv.1).isNone)
      = m.filter fun kv => (lookupField d kv.1).isNone := by
    show ((d.map fun kv => (kv.1, (lookupField m kv.1).getD kv.2)) ++
        m.filter fun kv => (lookupField d kv.1).isNone).filter
          (fun kv => (lookupField d kv.1).isNone) = _
    rw [List.filter_append]
    have h1 : (d.map fun kv => (kv.1, (lookupField m kv.1).getD kv.2)).filter
        (fun kv => (lookupField d kv.1).isNone) = [] := by
      rw [List.filter_eq_nil_iff]
      intro kv hm
      obtain ⟨⟨k, v⟩, hmem, heq⟩ := List.mem_map.mp hm
      subst heq
      have hs : (lookupField d k).isSome := by
        rw [lookupField_of_mem_nodup d k v hnd hmem]; rfl
      simp only [Option.isNone_iff_eq_none]
      exact Option.ne_none_iff_isSome.mpr hs
    rw [h1, List.nil_append, List.filter_filter]
    apply List.filter_congr
    intro kv hm
    simp
  calc jmerge d (jmerge d m)
      = (d.map fun kv => (kv.1, (lookupField (jmerge d m) kv.1).getD kv.2)) ++
        (jmerge d m).filter (fun kv => (lookupField d kv.1).isNone) := rfl
    _ = (d.map fun kv => (kv.1, (lookupField m kv.1).getD kv.2)) ++
        (m.filter fun kv => (lookupField d kv.1).isNone) := by rw [hmap, hfilt]
    _ = jmerge d m := rfl

/-! ### Index keys of a spread never collide with the Migrator's field names

The own enumerable keys that a string or array contributes under spread are
the decimal indices `"0"`, `"1"`, …; the Migrator's named keys all start
with a letter, so lookups of those names in index-keyed entries miss. -/

theorem digitChar_isDigit (m : Nat) (h : m < 10) : (Nat.digitChar m).isDigit := by
  interval_cases m <;> decide

theorem toDigitsCore_digits (f : Nat) :
    ∀ (n : Nat) (l : List Char), (∀ c ∈ l, c.isDigit) →
      ∀ c ∈ Nat.toDigitsCore 10 f n l, c.isDigit := by
  induction f with
  | zero => intro n l hl c hc; exact hl c hc
  | succ f ih =>
    intro n l hl c hc
    simp only [Nat.toDigitsCore] at hc
    have hd : ∀ c ∈ Nat.digitChar (n % 10) :: l, c.isDigit := by
      intro c hc
      rcases List.mem_cons.mp hc with h | h
      · subst h; exact digitChar_isDigit _ (Nat.mod_lt _ (by decide))
      · exact hl c h
    by_cases hz : n / 10 = 0
    · rw [if_pos hz] at hc
      exact hd c hc
    · rw [if_neg hz] at hc
      exact ih (n / 10) _ hd c hc

theorem natToString_digits (n : Nat) : ∀ c ∈ (toString n).data, c.isDigit := by
  intro c hc
  have : (toString n).data = Nat.toDigitsCore 10 (n + 1) n [] := by
    rfl
  rw [this] at hc
  exact toDigitsCore_digits (n + 1) n [] (by simp) c hc

theorem natToString_ne (n : Nat) (s : String) (c : Char) (hc : c ∈ s.data)
    (hnd : ¬ c.isDigit) : toString n ≠ s := by
  intro h
  exact hnd (natToString_digits n c (h ▸ hc))

/-- Lookups of the Migrator's (letter-initial) field names in index-keyed
spread entries always miss. -/
theorem lookupField_enumKeys {α : Type} (l : List (Nat × α)) (f : Nat × α → Jval) (s : String)
    (c : Char) (hc : c ∈ s.data) (hnd : ¬ c.isDigit) :
    lookupField (l.map fun p => (toString p.1, f p)) s = none := by
  apply lookupField_eq_none
  intro kv hm
  obtain ⟨p, _, heq⟩ := List.mem_map.mp hm
  subst heq
  exact natToString_ne p.1 s c hc hnd

/-! ### Small facts about the value helpers -/

theorem truthy_not_null {v : Jval} (h : truthy v) : v.isNull = false := by
  cases v <;> simp_all [truthy, Jval.isNull]

theorem jorElse_not_null {a : Option Jval} {b : Jval} (hb : b.isNull = false) :
    (jorElse a b).isNull = false := by
  cases a with
  | none => simpa [jorElse]
  | some v =>
    by_cases h : truthy v
    · simpa [jorElse, h] using truthy_not_null h
    · simpa [jorElse, h]

theorem jnullish_not_null {a : Option Jval} {b : Jval} (hb : b.isNull = false) :
    (jnullish a b).isNull = false := by
  cases a with
  | none => simpa [jnullish]
  | some v =>
    by_cases h : v.isNull = true <;> simp_all [jnullish]

theorem jorElse_truthy {a : Option Jval} {b : Jval} (hb : truthy b) :
    truthy (jorElse a b) := by
  cases a with
  | none => simpa [jorElse]
  | some v =>
    by_cases h : truthy v <;> simp_all [jorElse]

/-- Re-merging a merged scalar field against the same default is a no-op. -/
theorem mergeDefined_idem (dv : Jval) (x : Option Jval) :
    mergeDefined dv (some (mergeDefined dv x)) = mergeDefined dv x := by
  cases x with
  | none =>
    by_cases h : dv.isNull = true <;> simp [mergeDefined, h]
  | some v =>
    by_cases h : v.isNull = true
    · by_cases h2 : dv.isNull = true <;> simp [mergeDefined, h, h2]
    · simp [mergeDefined, h]

/-- A non-null value survives `mergeDefined` unchanged. -/
theorem mergeDefined_of_not_null (dv : Jval) {v : Jval} (h : v.isNull = false) :
    mergeDefined dv (some v) = v := by
  simp [mergeDefined, h]

/-- A truthy value survives `jorElse` unchanged. -/
theorem jorElse_of_truthy {v : Jval} (b : Jval) (h : truthy v) :
    jorElse (some v) b = v := by
  simp [jorElse, h]

/-- A non-null value survives `jnullish` unchanged. -/
theorem jnullish_of_not_null {v : Jval} (b : Jval) (h : v.isNull = false) :
    jnullish (some v) b = v := by
  simp [jnullish, h]

/-! ### The spell-field migration is a no-op on its own output -/

/-- For a letter-initial key, the spread entries of a value bind exactly
what property read does: index keys of strings and arrays never match. -/
theorem lookupField_entriesOf_letter (t : Jval) (key : String) (c : Char)
    (hc : c ∈ key.data) (hnd : ¬ c.isDigit) :
    lookupField (entriesOf t) key = jget t key := by
  cases t with
  | jobj fs => rfl
  | jstr s =>
    show lookupField (s.toList.enum.map fun p => (toString p.1, jstr (String.singleton p.2))) key = _
    rw [lookupField_enumKeys _ _ key c hc hnd]; rfl
  | jarr xs =>
    show lookupField (xs.enum.map fun p => (toString p.1, p.2)) key = _
    rw [lookupField_enumKeys _ _ key c hc hnd]; rfl
  | jnull => rfl
  | jbool b => rfl
  | jnum n => rfl

/-- A spell object with no retired fields and a present `duration` field is
passed through unchanged by the spell migration. -/
theorem migrateSpell_branch3 (fs : List (String × Jval))
    (hc : lookupField fs "concentration" = none)
    (hm : lookupField fs "material" = none)
    (hd : (lookupField fs "duration").isSome) :
    migrateSpell (jobj fs) = .ok (jobj fs) := by
  have h1 : jget (jobj fs) "concentration" = none := hc
  have h2 : jget (jobj fs) "material" = none := hm
  have h3 : (jget (jobj fs) "duration").isNone = false := by
    rcases Option.isSome_iff_exists.mp hd with ⟨v, hv⟩
    show (lookupField fs "duration").isNone = false
    rw [hv]; rfl
  simp [migrateSpell, jgetE, h1, h2, h3]

/-- A spell entry produced by the spell-field migration passes through it
unchanged: the migration is idempotent entry-wise. -/
theorem migrateSpell_fix_aux (s : Jval) (hok : jgetE s "concentration" = .ok (jget s "concentration"))
    {s' : Jval} (h : migrateSpell s = .ok s') : migrateSpell s' = .ok s' := by
  rw [migrateSpell, hok] at h
  dsimp only at h
  by_cases h1 : (jget s "concentration").isSome ∨ (jget s "material").isSome
  · rw [if_pos h1] at h
    injection h with h
    subst h
    apply migrateSpell_branch3
    · rw [lookupField_setField, if_neg (by decide : ¬ ("duration" = "concentration"))]
      unfold removeKeys
      rw [lookupField_filter_key (entriesOf s)
        (fun k => !(List.contains ["concentration", "material"] k)) "concentration"]
      simp
    · rw [lookupField_setField, if_neg (by decide : ¬ ("duration" = "material"))]
      unfold removeKeys
      rw [lookupField_filter_key (entriesOf s)
        (fun k => !(List.contains ["concentration", "material"] k)) "material"]
      simp
    · rw [lookupField_setField]
      simp
  · rw [if_neg h1] at h
    push_neg at h1
    obtain ⟨h1c, h1m⟩ := h1
    by_cases h2 : (jget s "duration").isNone
    · rw [if_pos h2] at h
      injection h with h
      subst h
      apply migrateSpell_branch3
      · rw [lookupField_append,
          lookupField_entriesOf_letter s "concentration" 'c' (by decide) (by decide),
          Option.not_isSome_iff_eq_none.mp h1c]
        simp [lookupField]
      · rw [lookupField_append,
          lookupField_entriesOf_letter s "material" 'm' (by decide) (by decide),
          Option.not_isSome_iff_eq_none.mp h1m]
        simp [lookupField]
      · rw [lookupField_append,
          lookupField_entriesOf_letter s "duration" 'd' (by decide) (by decide),
          Option.isNone_iff_eq_none.mp h2]
        simp [lookupField]
    · rw [if_neg h2] at h
      injection h with h
      subst h
      have hsome : (jget s "duration").isSome :=
        Option.ne_none_iff_isSome.mp fun hn => h2 (Option.isNone_iff_eq_none.mpr hn)
      cases s with
      | jobj fs =>
        exact migrateSpell_branch3 fs (Option.not_isSome_iff_eq_none.mp h1c)
          (Option.not_isSome_iff_eq_none.mp h1m) hsome
      | jnull => simp [jget] at hsome
      | jbool b => simp [jget] at hsome
      | jnum n => simp [jget] at hsome
      | jstr str => simp [jget] at hsome
      | jarr xs => simp [jget] at hsome

theorem migrateSpell_fix {s s' : Jval} (h : migrateSpell s = .ok s') :
    migrateSpell s' = .ok s' := by
  cases s with
  | jnull => simp [migrateSpell, jgetE] at h
  | jobj fs => exact migrateSpell_fix_aux (jobj fs) rfl h
  | jbool b => exact migrateSpell_fix_aux (jbool b) rfl h
  | jnum n => exact migrateSpell_fix_aux (jnum n) rfl h
  | jstr str => exact migrateSpell_fix_aux (jstr str) rfl h
  | jarr xs => exact migrateSpell_fix_aux (jarr xs) rfl h

/-- Mapping a function that fixes every element of a list succeeds and
returns the list unchanged. -/
theorem exceptMapM_fix {f : Jval → Except Unit Jval} {xs : List Jval}
    (h : ∀ x ∈ xs, f x = .ok x) : exceptMapM f xs = .ok xs := by
  induction xs with
  | nil => rfl
  | cons x rest ih =>
    rw [exceptMapM, h x (List.mem_cons_self x rest),
      ih fun y hy => h y (List.mem_cons_of_mem x hy)]

/-- Every output element of a successful `exceptMapM` is the image of some
input element. -/
theorem exceptMapM_mem {f : α → Except Unit β} {xs : List α} {ys : List β}
    (h : exceptMapM f xs = .ok ys) : ∀ y ∈ ys, ∃ x ∈ xs, f x = .ok y := by
  induction xs generalizing ys with
  | nil =>
    rw [exceptMapM] at h
    injection h with h
    subst h
    intro y hy
    simp at hy
  | cons x rest ih =>
    rw [exceptMapM] at h
    cases hfx : f x with
    | error e => rw [hfx] at h; exact absurd h (by simp)
    | ok y0 =>
      rw [hfx] at h
      cases hrest : exceptMapM f rest with
      | error e => rw [hrest] at h; exact absurd h (by simp)
      | ok ys0 =>
        rw [hrest] at h
        injection h with h
        subst h
        intro y hy
        rcases List.mem_cons.mp hy with hy | hy
        · exact ⟨x, List.mem_cons_self x rest, hy ▸ hfx⟩
        · rcases ih hrest y hy with ⟨x0, hx0, hfx0⟩
          exact ⟨x0, List.mem_cons_of_mem x hx0, hfx0⟩


/-! ## Canonical documents

`Canonical d` collects the shape invariants every Migrator output enjoys;
they are exactly what makes a second Migrator pass the identity. -/

/-- Breakdown fields are never null (each was defaulted via `??` or `||`). -/
def BreakdownFix (b : Breakdown) : Prop :=
  b.base.isNull = false ∧ b.race.isNull = false ∧ b.asi.isNull = false ∧
    b.feat.isNull = false ∧ b.magic.isNull = false

/-- Skill entries have a truthy ability and a non-null modifier. -/
def SkillFix (e : SkillEntry) : Prop :=
  truthy e.ability ∧ e.modifier.isNull = false

structure Canonical (d : Doc) : Prop where
  hCharacterName : mergeDefined (jstr "") (some d.characterName) = d.characterName
  hPlayerName : mergeDefined (jstr "") (some d.playerName) = d.playerName
  hRace : mergeDefined (jstr "") (some d.race) = d.race
  hCharClass : mergeDefined (jstr "") (some d.charClass) = d.charClass
  hLevel : mergeDefined (jnum 1) (some d.level) = d.level
  hBackground : mergeDefined (jstr "") (some d.background) = d.background
  hSubclass : mergeDefined (jstr "") (some d.subclass) = d.subclass
  hAlignment : mergeDefined (jstr "") (some d.alignment) = d.alignment
  hExperience : mergeDefined (jnum 0) (some d.experience) = d.experience
  hAbility : ∀ k : AbilityKey, BreakdownFix (d.abilityScores.get k)
  hAbilityModifiers : jmerge defaultAbilityModifiers d.abilityModifiers = d.abilityModifiers
  hProficiencyBonus : mergeDefined (jnum 2) (some d.proficiencyBonus) = d.proficiencyBonus
  hPassivePerception : mergeDefined (jnum 10) (some d.passivePerception) = d.passivePerception
  hSavingThrows : jmerge defaultSavingThrows d.savingThrows = d.savingThrows
  hArmorClass : mergeDefined (jnum 10) (some d.armorClass) = d.armorClass
  hShield : mergeDefined (jbool false) (some d.shield) = d.shield
  hInitiative : mergeDefined (jnum 0) (some d.initiative) = d.initiative
  hSpeed : mergeDefined (jnum 30) (some d.speed) = d.speed
  hSize : mergeDefined (jstr "") (some d.size) = d.size
  hHeroicInspiration : mergeDefined (jbool false) (some d.heroicInspiration) = d.heroicInspiration
  hHitPointsMax : mergeDefined (jnum 0) (some d.hitPointsMax) = d.hitPointsMax
  hHitPointsCurrent : mergeDefined (jnum 0) (some d.hitPointsCurrent) = d.hitPointsCurrent
  hHitPointsTemp : mergeDefined (jnum 0) (some d.hitPointsTemp) = d.hitPointsTemp
  hHitDice : mergeDefined (jstr "") (some d.hitDice) = d.hitDice
  hHitDiceSpent : mergeDefined (jnum 0) (some d.hitDiceSpent) = d.hitDiceSpent
  hDeathSaves : jmerge defaultDeathSaves d.deathSaves = d.deathSaves
  hSkills : ∀ e ∈ d.skills, SkillFix e
  hWeapons : ∃ ws, d.weapons = jarr ws
  hSpells : ∃ ss, d.spells = jarr ss ∧ ∀ s ∈ ss, migrateSpell s = .ok s
  hFeatures : mergeDefined (jstr "") (some d.features) = d.features
  hFeats : mergeDefined (jstr "") (some d.feats) = d.feats
  hSpeciesTraits : mergeDefined (jstr "") (some d.speciesTraits) = d.speciesTraits
  hSpellcastingAbility : mergeDefined (jstr "") (some d.spellcastingAbility) = d.spellcastingAbility
  hSpellSaveDC : mergeDefined (jnum 0) (some d.spellSaveDC) = d.spellSaveDC
  hSpellAttackBonus : mergeDefined (jstr "+0") (some d.spellAttackBonus) = d.spellAttackBonus
  hSpellSlots : jmerge defaultSpellSlots d.spellSlots = d.spellSlots
  hKnownSpells : mergeDefined (jstr "") (some d.knownSpells) = d.knownSpells
  hEquipment : mergeDefined (jstr "") (some d.equipment) = d.equipment
  hEquipmentDetail : mergeDefined (jstr "") (some d.equipmentDetail) = d.equipmentDetail
  hArmorProficiencies : mergeDefined (jstr "") (some d.armorProficiencies) = d.armorProficiencies
  hWeaponProficiencies : mergeDefined (jstr "") (some d.weaponProficiencies) = d.weaponProficiencies
  hToolProficiencies : mergeDefined (jstr "") (some d.toolProficiencies) = d.toolProficiencies
  hLanguages : mergeDefined (jstr "") (some d.languages) = d.languages
  hCoins : jmerge defaultCoins d.coins = d.coins
  hBackstory : mergeDefined (jstr "") (some d.backstory) = d.backstory
  hAppearance : mergeDefined (jstr "") (some d.appearance) = d.appearance
  hNotes : mergeDefined (jstr "") (some d.notes) = d.notes
  hCharacterImageFileId : mergeDefined jnull (some d.characterImageFileId) = d.characterImageFileId

theorem canonical_default : Canonical defaultData := by
  constructor <;>
    first
      | rfl
      | (intro k; cases k <;> exact ⟨rfl, rfl, rfl, rfl, rfl⟩)
      | (intro e he; cases he)
      | exact ⟨[], rfl⟩
      | exact ⟨[], rfl, by intro s hs; cases hs⟩

theorem jnullish_num (a : Option Jval) (n : Int) :
    (jnullish a (jnum n)).isNull = false :=
  jnullish_not_null rfl

theorem jorElse_num (a : Option Jval) (n : Int) :
    (jorElse a (jnum n)).isNull = false :=
  jorElse_not_null rfl

theorem breakdownFix_mergedBreakdown (s : Option Jval) (key : String) :
    BreakdownFix (mergedBreakdown s key) :=
  ⟨jnullish_num _ 10, jnullish_num _ 0, jnullish_num _ 0, jnullish_num _ 0, jnullish_num _ 0⟩

theorem breakdownFix_legacyBreakdown (s : Jval) (key : String) :
    BreakdownFix (legacyBreakdown s key) :=
  ⟨jorElse_num _ 10, rfl, rfl, rfl, rfl⟩

theorem breakdownFix_mergeAbilityScores (s : Option Jval) (k : AbilityKey) :
    BreakdownFix ((mergeAbilityScores s).get k) := by
  cases s with
  | none =>
    cases k <;> exact breakdownFix_mergedBreakdown none _
  | some sc =>
    rw [mergeAbilityScores]
    by_cases hl : (truthy sc && (jget sc "str").elim false Jval.isNum) = true
    · rw [if_pos hl]
      cases k <;> exact breakdownFix_legacyBreakdown sc _
    · rw [if_neg hl]
      cases k <;> exact breakdownFix_mergedBreakdown (some sc) _

theorem skillFix_normalizeSkillEntry {x : Jval} {e : SkillEntry}
    (h : normalizeSkillEntry x = .ok e) : SkillFix e := by
  rw [normalizeSkillEntry] at h
  cases hg : jgetE x "id" with
  | error er => rw [hg] at h; exact absurd h (by simp)
  | ok i =>
    rw [hg] at h
    injection h with h
    subst h
    exact ⟨jorElse_truthy rfl, jnullish_not_null rfl⟩

theorem skillFix_normalizeSkills {v : Jval} {sk : List SkillEntry}
    (h : normalizeSkills v = .ok sk) : ∀ e ∈ sk, SkillFix e := by
  cases v with
  | jarr xs =>
    intro e he
    rcases exceptMapM_mem h e he with ⟨x, _, hx⟩
    exact skillFix_normalizeSkillEntry hx
  | jnull => exact absurd h (by simp [normalizeSkills])
  | jbool b => exact absurd h (by simp [normalizeSkills])
  | jnum n => exact absurd h (by simp [normalizeSkills])
  | jstr s => exact absurd h (by simp [normalizeSkills])
  | jobj fs => exact absurd h (by simp [normalizeSkills])

theorem canonical_mergeWithDefaults {data : Jval} {doc : Doc}
    (hw : ∃ ws, jget data "weapons" = some (jarr ws))
    (hsp : ∃ ss, jget data "spells" = some (jarr ss) ∧ ∀ s ∈ ss, migrateSpell s = .ok s)
    (h : mergeWithDefaults data = .ok doc) : Canonical doc := by
  rw [mergeWithDefaults] at h
  cases hns : normalizeSkills (jorElse (jget data "skills") (jarr [])) with
  | error e => rw [hns] at h; exact absurd h (by simp)
  | ok sk =>
    rw [hns] at h
    injection h with h
    subst h
    obtain ⟨ws, hws⟩ := hw
    obtain ⟨ss, hss, hfix⟩ := hsp
    refine ⟨mergeDefined_idem .., mergeDefined_idem .., mergeDefined_idem ..,
      mergeDefined_idem .., mergeDefined_idem .., mergeDefined_idem ..,
      mergeDefined_idem .., mergeDefined_idem .., mergeDefined_idem ..,
      fun k => breakdownFix_mergeAbilityScores _ k,
      jmerge_idem _ _ (by decide),
      mergeDefined_idem .., mergeDefined_idem ..,
      jmerge_idem _ _ (by decide),
      mergeDefined_idem .., mergeDefined_idem .., mergeDefined_idem ..,
      mergeDefined_idem .., mergeDefined_idem .., mergeDefined_idem ..,
      mergeDefined_idem .., mergeDefined_idem .., mergeDefined_idem ..,
      mergeDefined_idem .., mergeDefined_idem ..,
      jmerge_idem _ _ (by decide),
      skillFix_normalizeSkills hns,
      ⟨ws, by rw [hws]; rfl⟩,
      ⟨ss, by rw [hss]; rfl, hfix⟩,
      mergeDefined_idem .., mergeDefined_idem .., mergeDefined_idem ..,
      mergeDefined_idem .., mergeDefined_idem .., mergeDefined_idem ..,
      jmerge_idem _ _ (by decide),
      mergeDefined_idem .., mergeDefined_idem .., mergeDefined_idem ..,
      mergeDefined_idem .., mergeDefined_idem .., mergeDefined_idem ..,
      mergeDefined_idem ..,
      jmerge_idem _ _ (by decide),
      mergeDefined_idem .., mergeDefined_idem .., mergeDefined_idem ..,
      mergeDefined_idem ..⟩

theorem coerce_post (fs : List (String × Jval)) (k : String) :
    ∃ xs, lookupField (coerceArrayField fs k) k = some (jarr xs) := by
  rw [coerceArrayField]
  cases hl : lookupField fs k with
  | none => exact ⟨[], by rw [lookupField_setField, if_pos rfl]⟩
  | some v =>
    dsimp only
    by_cases hc : (truthy v && v.isArr) = true
    · rw [if_pos hc]
      cases v with
      | jarr xs => exact ⟨xs, hl⟩
      | jnull => simp [Jval.isArr] at hc
      | jbool b => simp [Jval.isArr] at hc
      | jnum n => simp [Jval.isArr] at hc
      | jstr s => simp [Jval.isArr] at hc
      | jobj f => simp [Jval.isArr] at hc
    · rw [if_neg hc]
      exact ⟨[], by rw [lookupField_setField, if_pos rfl]⟩

theorem coerce_preserve (fs : List (String × Jval)) (k k' : String) (hne : ¬ (k = k')) :
    lookupField (coerceArrayField fs k) k' = lookupField fs k' := by
  rw [coerceArrayField]
  cases hl : lookupField fs k with
  | none => rw [lookupField_setField, if_neg hne]
  | some v =>
    dsimp only
    by_cases hc : (truthy v && v.isArr) = true
    · rw [if_pos hc]
    · rw [if_neg hc, lookupField_setField, if_neg hne]

theorem loadDataSteps_post {fs fs' : List (String × Jval)}
    (h : loadDataSteps fs = .ok fs') :
    (∃ ws, lookupField fs' "weapons" = some (jarr ws)) ∧
      ∃ ss, lookupField fs' "spells" = some (jarr ss) ∧ ∀ s ∈ ss, migrateSpell s = .ok s := by
  rw [loadDataSteps, migrateSpellField] at h
  obtain ⟨ss0, hss0⟩ :=
    coerce_post (coerceArrayField (migrateSkillShape fs) "weapons") "spells"
  rw [hss0] at h
  dsimp only at h
  cases hmm : exceptMapM migrateSpell ss0 with
  | error e => rw [hmm] at h; exact absurd h (by simp)
  | ok ss =>
    rw [hmm] at h
    injection h with h
    subst h
    constructor
    · obtain ⟨ws, hws⟩ := coerce_post (migrateSkillShape fs) "weapons"
      refine ⟨ws, ?_⟩
      rw [lookupField_setField, if_neg (by decide : ¬ ("spells" = "weapons"))]
      rw [coerce_preserve _ _ _ (by decide : ¬ ("spells" = "weapons"))]
      exact hws
    · refine ⟨ss, ?_, ?_⟩
      · rw [lookupField_setField, if_pos rfl]
      · intro s hs
        rcases exceptMapM_mem hmm s hs with ⟨x, _, hx⟩
        exact migrateSpell_fix hx

/-- Every Migrator output is canonical. -/
theorem canonical_normalize (x : Jval) : Canonical (normalize x) := by
  cases x with
  | jobj fs =>
    rw [normalize]
    cases hsteps : loadDataSteps fs with
    | error e => exact canonical_default
    | ok fs' =>
      dsimp only
      obtain ⟨hw, hsp⟩ := loadDataSteps_post hsteps
      cases hm : mergeWithDefaults (jobj fs') with
      | error e =>
        have hv : validateAndMigrateData (jobj fs') = defaultData := by
          simp [validateAndMigrateData, hm, Except.toOption]
        rw [hv]; exact canonical_default
      | ok doc =>
        have hv : validateAndMigrateData (jobj fs') = doc := by
          simp [validateAndMigrateData, hm, Except.toOption]
        rw [hv]
        exact @canonical_mergeWithDefaults (jobj fs') doc hw hsp hm
  | jnull => exact canonical_default
  | jbool b => exact canonical_default
  | jnum n => exact canonical_default
  | jstr s => exact canonical_default
  | jarr xs => exact canonical_default


/-! ## A second Migrator pass is the identity on canonical documents -/

theorem normalizeSkillEntry_fix (e : SkillEntry) (ha : truthy e.ability)
    (hm : e.modifier.isNull = false) :
    normalizeSkillEntry (skillEntryToJson e) = .ok e := by
  obtain ⟨i, n, a, m⟩ := e
  cases i <;> cases n <;>
    · show Except.ok _ = _
      rw [Except.ok.injEq]
      show SkillEntry.mk _ _ (jorElse (some a) (jstr "str")) (jnullish (some m) (jstr "+0")) = _
      rw [jorElse_of_truthy _ ha, jnullish_of_not_null _ hm]
      rfl

theorem normalizeSkills_json (es : List SkillEntry) (h : ∀ e ∈ es, SkillFix e) :
    normalizeSkills (jarr (es.map skillEntryToJson)) = .ok es := by
  induction es with
  | nil => rfl
  | cons e rest ih =>
    have hfe := h e (List.mem_cons_self e rest)
    have hrest := ih fun e' he' => h e' (List.mem_cons_of_mem e he')
    show exceptMapM normalizeSkillEntry (skillEntryToJson e :: rest.map skillEntryToJson) = _
    rw [exceptMapM, normalizeSkillEntry_fix e hfe.1 hfe.2]
    rw [show exceptMapM normalizeSkillEntry (rest.map skillEntryToJson) = .ok rest from hrest]

theorem mergedBreakdown_key (sc : Jval) (key : String) (b : Breakdown)
    (hk : jget sc key = some (breakdownToJson b)) (hfix : BreakdownFix b) :
    mergedBreakdown (some sc) key = b := by
  obtain ⟨x1, x2, x3, x4, x5⟩ := b
  obtain ⟨f1, f2, f3, f4, f5⟩ := hfix
  show Breakdown.mk
      (jnullish ((jget sc key).bind fun b0 => jget b0 "base") (jnum 10))
      (jnullish ((jget sc key).bind fun b0 => jget b0 "race") (jnum 0))
      (jnullish ((jget sc key).bind fun b0 => jget b0 "asi") (jnum 0))
      (jnullish ((jget sc key).bind fun b0 => jget b0 "feat") (jnum 0))
      (jnullish ((jget sc key).bind fun b0 => jget b0 "magic") (jnum 0)) = _
  rw [hk]
  show Breakdown.mk (jnullish (some x1) (jnum 10)) (jnullish (some x2) (jnum 0))
      (jnullish (some x3) (jnum 0)) (jnullish (some x4) (jnum 0))
      (jnullish (some x5) (jnum 0)) = _
  rw [jnullish_of_not_null _ f1, jnullish_of_not_null _ f2, jnullish_of_not_null _ f3,
    jnullish_of_not_null _ f4, jnullish_of_not_null _ f5]

theorem mergeAbilityScores_json (a : AbilityScoresJ) (h : ∀ k, BreakdownFix (a.get k)) :
    mergeAbilityScores (some (abilityScoresToJson a)) = a := by
  obtain ⟨b1, b2, b3, b4, b5, b6⟩ := a
  rw [mergeAbilityScores]
  rw [if_neg (by
    rw [show jget (abilityScoresToJson ⟨b1, b2, b3, b4, b5, b6⟩) "str"
      = some (breakdownToJson b1) from rfl]
    simp [breakdownToJson, Jval.isNum])]
  rw [AbilityScoresJ.mk.injEq]
  exact ⟨mergedBreakdown_key _ _ _ rfl (h .str), mergedBreakdown_key _ _ _ rfl (h .dex),
    mergedBreakdown_key _ _ _ rfl (h .con), mergedBreakdown_key _ _ _ rfl (h .int),
    mergedBreakdown_key _ _ _ rfl (h .wis), mergedBreakdown_key _ _ _ rfl (h .cha)⟩

/-- Shallow sub-record merges are the identity on already-merged maps. -/
theorem mergeMap_json (dm m : List (String × Jval)) (h : jmerge dm m = m) :
    mergeMap dm (some (jobj m)) = m := by
  show jmerge dm (entriesOf (jorElse (some (jobj m)) (jobj []))) = m
  rw [show jorElse (some (jobj m)) (jobj []) = jobj m from rfl]
  exact h

/-- The Migrator is the identity on serialized canonical documents. -/
theorem normalize_canonical (d : Doc) (h : Canonical d) : normalize (docToJson d) = d := by
  obtain ⟨ws, hws⟩ := h.hWeapons
  obtain ⟨ss, hss, hfix⟩ := h.hSpells
  have lw : lookupField (docFields d) "weapons" = some d.weapons := rfl
  have ls : lookupField (docFields d) "spells" = some d.spells := rfl
  have lss2 : lookupField (docFields d) "spells" = some (jarr ss) := by rw [ls, hss]
  have l1 : migrateSkillShape (docFields d) = docFields d := rfl
  have l2 : coerceArrayField (docFields d) "weapons" = docFields d := by
    rw [coerceArrayField, lw]
    dsimp only
    rw [hws]
    rfl
  have l3 : coerceArrayField (docFields d) "spells" = docFields d := by
    rw [coerceArrayField, ls]
    dsimp only
    rw [hss]
    rfl
  have l4 : migrateSpellField (docFields d) = .ok (docFields d) := by
    rw [migrateSpellField, lss2]
    dsimp only
    rw [exceptMapM_fix hfix]
    dsimp only
    rw [setField_self _ _ _ lss2]
  have hsteps : loadDataSteps (docFields d) = .ok (docFields d) := by
    rw [loadDataSteps, l1, l2, l3, l4]
  have hns : normalizeSkills (jorElse (jget (jobj (docFields d)) "skills") (jarr []))
      = .ok d.skills := by
    rw [show jorElse (jget (jobj (docFields d)) "skills") (jarr [])
      = jarr (d.skills.map skillEntryToJson) from rfl]
    exact normalizeSkills_json d.skills h.hSkills
  have hmerge : mergeWithDefaults (jobj (docFields d)) = .ok d := by
    rw [mergeWithDefaults]
    rw [hns]
    dsimp only
    rw [Except.ok.injEq]
    obtain ⟨cn, pn, rc, cc, lv, bg, sbc, al, ex, asx, am, pb, pp, st, ac, sh, ini, spd, sz,
      hi, hpm, hpc, hpt, hdc, hdsp, dsv, sk, wp, spl, ft, fts, spt, sca, sdc, sab, ssl, ks,
      eqp, eqd, apf, wpf, tpf, lg, co, bst, apr, nts, cif⟩ := d
    subst hws
    subst hss
    rw [Doc.mk.injEq]
    exact ⟨h.hCharacterName, h.hPlayerName, h.hRace, h.hCharClass, h.hLevel, h.hBackground,
      h.hSubclass, h.hAlignment, h.hExperience,
      mergeAbilityScores_json asx h.hAbility,
      mergeMap_json _ _ h.hAbilityModifiers,
      h.hProficiencyBonus, h.hPassivePerception,
      mergeMap_json _ _ h.hSavingThrows,
      h.hArmorClass, h.hShield, h.hInitiative, h.hSpeed, h.hSize, h.hHeroicInspiration,
      h.hHitPointsMax, h.hHitPointsCurrent, h.hHitPointsTemp, h.hHitDice, h.hHitDiceSpent,
      mergeMap_json _ _ h.hDeathSaves,
      rfl, rfl, rfl,
      h.hFeatures, h.hFeats, h.hSpeciesTraits, h.hSpellcastingAbility, h.hSpellSaveDC,
      h.hSpellAttackBonus,
      mergeMap_json _ _ h.hSpellSlots,
      h.hKnownSpells, h.hEquipment, h.hEquipmentDetail, h.hArmorProficiencies,
      h.hWeaponProficiencies, h.hToolProficiencies, h.hLanguages,
      mergeMap_json _ _ h.hCoins,
      h.hBackstory, h.hAppearance, h.hNotes, h.hCharacterImageFileId⟩
  have hval : normalize (docToJson d) = validateAndMigrateData (jobj (docFields d)) := by
    show (match loadDataSteps (docFields d) with
      | .ok fs' => validateAndMigrateData (jobj fs')
      | .error _ => defaultData) = _
    rw [hsteps]
  rw [hval]
  simp [validateAndMigrateData, hmerge, Except.toOption]

/-! ## Ability-score arithmetic (`calculateAbilityModifier`,
`calculateTotalAbilityScore`, `validateAbilityScore`) -/

/-- `validateAbilityScore`: clamp to `[1, 30]`. -/
def validateAbilityScore (value : Int) : Int :=
  max 1 (min 30 value)

/-- `calculateTotalAbilityScore`: sum the five breakdown components, then
clamp. -/
def calculateTotalAbilityScore (base race asi feat magic : Int) : Int :=
  validateAbilityScore (base + race + asi + feat + magic)

/-- `calculateAbilityModifier`: `Math.floor((score - 10) / 2)` (JavaScript
real division followed by floor is integer floor-division), rendered with a
leading `+` when non-negative. -/
def calculateAbilityModifier (score : Int) : String :=
  let modifier := Int.fdiv (score - 10) 2
  if 0 ≤ modifier then "+" ++ toString modifier else toString modifier

/-- Modelled from the spec: `clamp(x, lo, hi)` as the spec words it. -/
def specClamp (x lo hi : Int) : Int :=
  max lo (min hi x)

/-- Modelled from the spec: the claimed modifier value
`floor((clamp(base+race+asi+feat+magic, 1, 30) - 10) / 2)`. -/
def specModifier (base race asi feat magic : Int) : Int :=
  Int.fdiv (specClamp (base + race + asi + feat + magic) 1 30 - 10) 2

/-- Modelled from the spec: the claimed string rendering, with an explicit
leading `+` when the value is non-negative. -/
def specFormat (n : Int) : String :=
  if 0 ≤ n then "+" ++ toString n else toString n

/-! ## History engine (`pushHistory` / `undo` / `redo`) -/

/-- `MAX_HISTORY`. -/
def MAX_HISTORY : Nat := 50

/-- The history-relevant state of a `CharacterSheet`: the live document,
the snapshot stack and the cursor (`historyIndex` starts at `-1` before the
first push, hence an integer). Snapshots are deep copies; in this pure
embedding a copy is the value itself. -/
structure HistSt (α : Type) where
  data : α
  history : List α
  historyIndex : Int
  deriving Repr, DecidableEq

/-- `pushHistory()`: truncate the redo branch to `historyIndex + 1`
entries, append a snapshot of the live document, advance the cursor; if the
stack now exceeds `MAX_HISTORY`, `shift()` the oldest entry away and
decrement the cursor. -/
def pushHistory (s : HistSt α) : HistSt α :=
  let h := s.history.take (s.historyIndex + 1).toNat ++ [s.data]
  let i := s.historyIndex + 1
  if h.length > MAX_HISTORY then
    ⟨s.data, h.drop 1, i - 1⟩
  else
    ⟨s.data, h, i⟩

/-- `undo()`: when the cursor is positive, decrement it and install the
snapshot at the new cursor. (The engine only reaches states where that
index is in bounds; the `getD` default is never consulted there.) -/
def undo (s : HistSt α) : HistSt α :=
  if 0 < s.historyIndex then
    ⟨((s.history.get? (s.historyIndex - 1).toNat).getD s.data), s.history, s.historyIndex - 1⟩
  else s

/-- `redo()`: when the cursor is below the top, increment it and install
the snapshot at the new cursor. -/
def redo (s : HistSt α) : HistSt α :=
  if s.historyIndex < (s.history.length : Int) - 1 then
    ⟨((s.history.get? (s.historyIndex + 1).toNat).getD s.data), s.history, s.historyIndex + 1⟩
  else s

/-- A field mutation: the live document is replaced, history untouched
(the debounced push is a separate, later `pushHistory`). -/
def setData (v : α) (s : HistSt α) : HistSt α :=
  ⟨v, s.history, s.historyIndex⟩

/-- A sequence of mutate-then-push rounds: each push snapshots the live
document at push time. -/
def pushAll (s : HistSt α) (vs : List α) : HistSt α :=
  vs.foldl (fun t v => pushHistory (setData v t)) s

/-- States reachable by the engine: the cursor is in bounds and the live
document equals the snapshot under the cursor (established by the
constructor's initial push and maintained by push/undo/redo). -/
def histInv (s : HistSt α) : Prop :=
  0 ≤ s.historyIndex ∧ s.historyIndex < (s.history.length : Int) ∧
    s.history.get? s.historyIndex.toNat = some s.data

/-! ## Armor class display (`updateDisplayedArmorClass`) -/

/-- The two document fields the armor-class display reads. -/
structure CombatAC where
  armorClass : Int
  shield : Bool
  deriving Repr, DecidableEq

/-- The shield checkbox handler: `this.data.shield = v` (then a display
refresh, which touches no stored field). -/
def setShield (v : Bool) (st : CombatAC) : CombatAC :=
  ⟨st.armorClass, v⟩

/-- `updateDisplayedArmorClass`: displayed AC is
`(this.data.armorClass || 10) + (this.data.shield ? 2 : 0)`; the stored
base value is not changed. -/
def updateDisplayedArmorClass (st : CombatAC) : Int :=
  (if st.armorClass = 0 then 10 else st.armorClass) + (if st.shield then 2 else 0)

/-! ## Remote save (`saveToGoogleDrive`) -/

/-- The transient save-status indicator. -/
inductive SaveStatus where
  | idle
  | saving
  | saved
  | error (msg : String)
  deriving Repr, DecidableEq

/-- The state `saveToGoogleDrive` touches: the document/history state, the
remote-file binding (`currentDriveFileId` / `currentDriveFileName`), the
sign-in flag and the status line. -/
structure DriveState (α : Type) where
  hist : HistSt α
  currentDriveFileId : Option String
  currentDriveFileName : Option String
  signedIn : Bool
  status : SaveStatus
  deriving Repr, DecidableEq

/-- The remote store's answer to one `save` call. -/
structure SaveResult where
  fileId : String
  deriving Repr, DecidableEq

/-- `saveToGoogleDrive()`, with the single awaited remote call's outcome
passed in (`fallbackName` stands for the name derived from
`characterName`). On success the binding is updated to the saved id and
name; on rejection only the status line changes and nothing is retried. -/
def saveToGoogleDrive (st : DriveState α) (fallbackName : String)
    (outcome : Except String SaveResult) : DriveState α :=
  if !st.signedIn then
    { st with status := .error "Please sign in to Google Drive first" }
  else
    match outcome with
    | .error msg =>
      { st with status := .error ("Failed to save to Google Drive: " ++ msg) }
    | .ok r =>
      let fileName := st.currentDriveFileName.getD fallbackName
      { st with currentDriveFileId := some r.fileId,
                currentDriveFileName := some fileName,
                status := .saved }

/-- Number of remote `save` calls one `saveToGoogleDrive()` invocation
issues: one when signed in, none otherwise — never more (no retry loop). -/
def saveAttempts (st : DriveState α) : Nat :=
  if st.signedIn then 1 else 0

/-! ### History lemmas -/

theorem pushHistory_noEvict (s : HistSt α) (h0 : 0 ≤ s.historyIndex)
    (hcap : s.historyIndex.toNat + 2 ≤ MAX_HISTORY) :
    pushHistory s = ⟨s.data, s.history.take (s.historyIndex.toNat + 1) ++ [s.data],
      s.historyIndex + 1⟩ := by
  have h1 : (s.historyIndex + 1).toNat = s.historyIndex.toNat + 1 := by omega
  have hlen : (s.history.take (s.historyIndex + 1).toNat ++ [s.data]).length ≤ MAX_HISTORY := by
    rw [List.length_append, List.length_take, h1]
    simp only [List.length_singleton]
    omega
  show (if (s.history.take (s.historyIndex + 1).toNat ++ [s.data]).length > MAX_HISTORY
    then (⟨s.data, (s.history.take (s.historyIndex + 1).toNat ++ [s.data]).drop 1,
      s.historyIndex + 1 - 1⟩ : HistSt α)
    else ⟨s.data, s.history.take (s.historyIndex + 1).toNat ++ [s.data], s.historyIndex + 1⟩) = _
  rw [if_neg (by omega), h1]

theorem pushHistory_top (t : HistSt α) (htop : t.historyIndex = (t.history.length : Int) - 1)
    (hcap : t.history.length + 1 ≤ MAX_HISTORY) :
    pushHistory t = ⟨t.data, t.history ++ [t.data], t.historyIndex + 1⟩ := by
  have h1 : (t.historyIndex + 1).toNat = t.history.length := by omega
  have htake : t.history.take (t.historyIndex + 1).toNat = t.history := by
    rw [h1]; exact List.take_length _
  have hlen : (t.history ++ [t.data]).length ≤ MAX_HISTORY := by
    rw [List.length_append]; simp only [List.length_singleton]; omega
  show (if (t.history.take (t.historyIndex + 1).toNat ++ [t.data]).length > MAX_HISTORY
    then (⟨t.data, (t.history.take (t.historyIndex + 1).toNat ++ [t.data]).drop 1,
      t.historyIndex + 1 - 1⟩ : HistSt α)
    else ⟨t.data, t.history.take (t.historyIndex + 1).toNat ++ [t.data], t.historyIndex + 1⟩) = _
  rw [htake, if_neg (by omega)]

theorem pushAll_top : ∀ (vs : List α) (t : HistSt α),
    t.historyIndex = (t.history.length : Int) - 1 →
    t.history.length + vs.length ≤ MAX_HISTORY →
    pushAll t vs = ⟨vs.getLastD t.data, t.history ++ vs, t.historyIndex + vs.length⟩ := by
  intro vs
  induction vs with
  | nil =>
    intro t htop hcap
    show t = _
    simp
  | cons v rest ih =>
    intro t htop hcap
    show pushAll (pushHistory (setData v t)) rest = _
    have hpush : pushHistory (setData v t) = ⟨v, t.history ++ [v], t.historyIndex + 1⟩ :=
      pushHistory_top (setData v t) htop
        (by show t.history.length + 1 ≤ MAX_HISTORY
            simp only [List.length_cons] at hcap
            omega)
    rw [hpush]
    rw [ih ⟨v, t.history ++ [v], t.historyIndex + 1⟩
      (by simp only [List.length_append, List.length_singleton]; push_cast; omega)
      (by simp only [List.length_append, List.length_singleton] at hcap ⊢
          simp only [List.length_cons] at hcap
          omega)]
    rw [HistSt.mk.injEq]
    refine ⟨(List.getLastD_cons t.data v rest).symm, by simp, ?_⟩
    simp only [List.length_cons]
    push_cast
    ring

theorem undoN_spec : ∀ (k : Nat) (t : HistSt α), histInv t → (k : Int) ≤ t.historyIndex →
    (undo^[k] t).history = t.history ∧
      ((undo^[k] t).historyIndex = t.historyIndex - k) ∧
      t.history.get? (t.historyIndex - k).toNat = some (undo^[k] t).data := by
  intro k
  induction k with
  | zero =>
    intro t hinv hk
    simp only [Function.iterate_zero_apply, Nat.cast_zero, sub_zero]
    exact ⟨trivial, trivial, hinv.2.2⟩
  | succ k ih =>
    intro t hinv hk
    rw [Function.iterate_succ_apply]
    have hpos : 0 < t.historyIndex := by push_cast at hk; omega
    have hbound : (t.historyIndex - 1).toNat < t.history.length := by
      have := hinv.2.1
      omega
    have hex : ∃ v, t.history.get? (t.historyIndex - 1).toNat = some v := by
      cases hv : t.history.get? (t.historyIndex - 1).toNat with
      | none =>
        rw [List.get?_eq_none] at hv
        omega
      | some v => exact ⟨v, rfl⟩
    obtain ⟨v, hv⟩ := hex
    have hundo : undo t = ⟨v, t.history, t.historyIndex - 1⟩ := by
      rw [undo, if_pos hpos, hv]
      rfl
    rw [hundo]
    have hinv' : histInv (⟨v, t.history, t.historyIndex - 1⟩ : HistSt α) := by
      refine ⟨?_, ?_, hv⟩
      · show 0 ≤ t.historyIndex - 1
        omega
      · show t.historyIndex - 1 < (t.history.length : Int)
        have := hinv.2.1
        omega
    obtain ⟨ha, hb, hc⟩ := ih ⟨v, t.history, t.historyIndex - 1⟩ hinv'
      (by show (k : Int) ≤ t.historyIndex - 1
          push_cast at hk
          omega)
    have hih : (⟨v, t.history, t.historyIndex - 1⟩ : HistSt α).historyIndex
        = t.historyIndex - 1 := rfl
    rw [hih] at hb hc
    refine ⟨ha, ?_, ?_⟩
    · rw [hb]; push_cast; ring
    · have heq : t.historyIndex - 1 - (k : Int) = t.historyIndex - ((k : Nat) + 1 : Nat) := by
        push_cast; ring
      rw [← heq]
      exact hc

theorem redoN_spec : ∀ (k : Nat) (t : HistSt α), histInv t →
    t.historyIndex + (k : Int) ≤ (t.history.length : Int) - 1 →
    (redo^[k] t).history = t.history ∧
      ((redo^[k] t).historyIndex = t.historyIndex + k) ∧
      t.history.get? (t.historyIndex + k).toNat = some (redo^[k] t).data := by
  intro k
  induction k with
  | zero =>
    intro t hinv hk
    simp only [Function.iterate_zero_apply, Nat.cast_zero, add_zero]
    exact ⟨trivial, trivial, hinv.2.2⟩
  | succ k ih =>
    intro t hinv hk
    rw [Function.iterate_succ_apply]
    have hpos : t.historyIndex < (t.history.length : Int) - 1 := by push_cast at hk; omega
    have hbound : (t.historyIndex + 1).toNat < t.history.length := by
      have := hinv.1
      omega
    have hex : ∃ v, t.history.get? (t.historyIndex + 1).toNat = some v := by
      cases hv : t.history.get? (t.historyIndex + 1).toNat with
      | none =>
        rw [List.get?_eq_none] at hv
        omega
      | some v => exact ⟨v, rfl⟩
    obtain ⟨v, hv⟩ := hex
    have hredo : redo t = ⟨v, t.history, t.historyIndex + 1⟩ := by
      rw [redo, if_pos hpos, hv]
      rfl
    rw [hredo]
    have hinv' : histInv (⟨v, t.history, t.historyIndex + 1⟩ : HistSt α) := by
      refine ⟨?_, ?_, hv⟩
      · show 0 ≤ t.historyIndex + 1
        have := hinv.1
        omega
      · show t.historyIndex + 1 < (t.history.length : Int)
        omega
    obtain ⟨ha, hb, hc⟩ := ih ⟨v, t.history, t.historyIndex + 1⟩ hinv'
      (by show t.historyIndex + 1 + (k : Int) ≤ (t.history.length : Int) - 1
          push_cast at hk
          omega)
    have hih : (⟨v, t.history, t.historyIndex + 1⟩ : HistSt α).historyIndex
        = t.historyIndex + 1 := rfl
    rw [hih] at hb hc
    refine ⟨ha, ?_, ?_⟩
    · rw [hb]; push_cast; ring
    · have heq : t.historyIndex + 1 + (k : Int) = t.historyIndex + ((k : Nat) + 1 : Nat) := by
        push_cast; ring
      rw [← heq]
      exact hc

/-! ### Support lemmas for the claim theorems -/

theorem migrateSkillShape_preserve (fs : List (String × Jval)) (k : String)
    (hk : ¬ ("skills" = k)) :
    lookupField (migrateSkillShape fs) k = lookupField fs k := by
  rw [migrateSkillShape]
  cases lookupField fs "skills" with
  | none => rfl
  | some v =>
    dsimp only
    by_cases hc : (truthy v && !v.isArr) = true
    · rw [if_pos hc, lookupField_setField, if_neg hk]
    · rw [if_neg hc]

/-- `loadDataSteps` only rewrites the `skills`, `weapons` and `spells`
fields. -/
theorem loadDataSteps_preserve {fs fs' : List (String × Jval)}
    (h : loadDataSteps fs = .ok fs') (k : String) (h1 : ¬ ("skills" = k))
    (h2 : ¬ ("weapons" = k)) (h3 : ¬ ("spells" = k)) :
    lookupField fs' k = lookupField fs k := by
  rw [loadDataSteps, migrateSpellField] at h
  obtain ⟨ss0, hss0⟩ :=
    coerce_post (coerceArrayField (migrateSkillShape fs) "weapons") "spells"
  rw [hss0] at h
  dsimp only at h
  cases hmm : exceptMapM migrateSpell ss0 with
  | error e => rw [hmm] at h; exact absurd h (by simp)
  | ok ss =>
    rw [hmm] at h
    injection h with h
    subst h
    rw [lookupField_setField, if_neg h3]
    rw [coerce_preserve _ _ _ h3, coerce_preserve _ _ _ h2]
    exact migrateSkillShape_preserve fs k h1

/-- When the stored value is not an array, the coercion installs `[]`. -/
theorem coerce_set (fs : List (String × Jval)) (k : String)
    (h : ∀ ws, ¬ (lookupField fs k = some (jarr ws))) :
    lookupField (coerceArrayField fs k) k = some (jarr []) := by
  rw [coerceArrayField]
  cases hl : lookupField fs k with
  | none => rw [lookupField_setField, if_pos rfl]
  | some v =>
    dsimp only
    have hnotarr : v.isArr = false := by
      cases v with
      | jarr xs => exact absurd hl (h xs)
      | jnull => rfl
      | jbool b => rfl
      | jnum n => rfl
      | jstr st => rfl
      | jobj f => rfl
    rw [if_neg (by simp [hnotarr])]
    rw [lookupField_setField, if_pos rfl]

/-- Unfolding `normalize` after knowing the outcome of the `loadData`
steps. -/
theorem normalize_of_steps {fs fs' : List (String × Jval)}
    (h : loadDataSteps fs = .ok fs') :
    normalize (jobj fs) = validateAndMigrateData (jobj fs') := by
  rw [normalize, h]

theorem validate_weapons_empty (fs' : List (String × Jval))
    (h : lookupField fs' "weapons" = some (jarr [])) :
    (validateAndMigrateData (jobj fs')).weapons = jarr [] := by
  cases hm : mergeWithDefaults (jobj fs') with
  | error e =>
    have hv : validateAndMigrateData (jobj fs') = defaultData := by
      simp [validateAndMigrateData, hm, Except.toOption]
    rw [hv]
    rfl
  | ok doc =>
    have hv : validateAndMigrateData (jobj fs') = doc := by
      simp [validateAndMigrateData, hm, Except.toOption]
    rw [hv]
    rw [mergeWithDefaults] at hm
    cases hns : normalizeSkills (jorElse (jget (jobj fs') "skills") (jarr [])) with
    | error e => rw [hns] at hm; exact absurd hm (by simp)
    | ok sk =>
      rw [hns] at hm
      injection hm with hm
      subst hm
      show jorElse (jget (jobj fs') "weapons") (jarr []) = jarr []
      rw [show jget (jobj fs') "weapons" = some (jarr []) from h]
      rfl

theorem validate_spells_empty (fs' : List (String × Jval))
    (h : lookupField fs' "spells" = some (jarr [])) :
    (validateAndMigrateData (jobj fs')).spells = jarr [] := by
  cases hm : mergeWithDefaults (jobj fs') with
  | error e =>
    have hv : validateAndMigrateData (jobj fs') = defaultData := by
      simp [validateAndMigrateData, hm, Except.toOption]
    rw [hv]
    rfl
  | ok doc =>
    have hv : validateAndMigrateData (jobj fs') = doc := by
      simp [validateAndMigrateData, hm, Except.toOption]
    rw [hv]
    rw [mergeWithDefaults] at hm
    cases hns : normalizeSkills (jorElse (jget (jobj fs') "skills") (jarr [])) with
    | error e => rw [hns] at hm; exact absurd hm (by simp)
    | ok sk =>
      rw [hns] at hm
      injection hm with hm
      subst hm
      show jorElse (jget (jobj fs') "spells") (jarr []) = jarr []
      rw [show jget (jobj fs') "spells" = some (jarr []) from h]
      rfl

/-- The array coercion of `loadData` lands in the final field list. -/
theorem loadDataSteps_coerce {fs fs' : List (String × Jval)}
    (h : loadDataSteps fs = .ok fs') :
    ((∀ ws, ¬ (lookupField fs "weapons" = some (jarr ws))) →
      lookupField fs' "weapons" = some (jarr [])) ∧
    ((∀ ss, ¬ (lookupField fs "spells" = some (jarr ss))) →
      lookupField fs' "spells" = some (jarr [])) := by
  rw [loadDataSteps, migrateSpellField] at h
  obtain ⟨ss0, hss0⟩ :=
    coerce_post (coerceArrayField (migrateSkillShape fs) "weapons") "spells"
  rw [hss0] at h
  dsimp only at h
  cases hmm : exceptMapM migrateSpell ss0 with
  | error e => rw [hmm] at h; exact absurd h (by simp)
  | ok ss =>
    rw [hmm] at h
    injection h with h
    subst h
    constructor
    · intro hw
      rw [lookupField_setField, if_neg (by decide : ¬ ("spells" = "weapons"))]
      rw [coerce_preserve _ _ _ (by decide : ¬ ("spells" = "weapons"))]
      apply coerce_set
      intro ws hcon
      rw [migrateSkillShape_preserve fs "weapons" (by decide)] at hcon
      exact hw ws hcon
    · intro hsp
      have hempty : lookupField (coerceArrayField (coerceArrayField
          (migrateSkillShape fs) "weapons") "spells") "spells" = some (jarr []) := by
        apply coerce_set
        intro ss1 hcon
        rw [coerce_preserve _ _ _ (by decide : ¬ ("weapons" = "spells"))] at hcon
        rw [migrateSkillShape_preserve fs "spells" (by decide)] at hcon
        exact hsp ss1 hcon
      have hss0' : ss0 = [] := by
        rw [hempty] at hss0
        injection hss0 with hss0
        injection hss0 with hss0
        exact hss0.symm
      subst hss0'
      have : ss = [] := by
        rw [show exceptMapM migrateSpell ([] : List Jval) = .ok [] from rfl] at hmm
        injection hmm with hmm
        exact hmm.symm
      subst this
      rw [lookupField_setField, if_pos rfl]

theorem get?_length_cons : ∀ (vs : List α) (a : α),
    (a :: vs).get? vs.length = some (vs.getLastD a) := by
  intro vs
  induction vs with
  | nil => intro a; rfl
  | cons v rest ih =>
    intro a
    show (v :: rest).get? rest.length = some _
    rw [ih v, List.getLastD_cons]

theorem lookupStr_eq_none (l : List (String × String)) (k : String)
    (h : ∀ kv ∈ l, kv.1 ≠ k) : lookupStr l k = none := by
  induction l with
  | nil => rfl
  | cons kv rest ih =>
    have h1 := h kv (List.mem_cons_self kv rest)
    simp [lookupStr, h1]
    exact ih fun kv2 hm => h kv2 (List.mem_cons_of_mem kv hm)

/-- A possibly-`undefined` value that is `undefined` or `null` (the values
`??` replaces). -/
def nullishO : Option Jval → Bool
  | none => true
  | some v => v.isNull

/-- Keys of an object value (the shape the claim speaks about). -/
def keysOf : Jval → List String
  | jobj fs => fs.map Prod.fst
  | _ => []

/-- Modelled from the spec: a value that is a finite integer within a clamp
range. -/
def fieldInRange (v : Jval) (lo hi : Int) : Prop :=
  ∃ n : Int, v = jnum n ∧ lo ≤ n ∧ n ≤ hi

/-- Modelled from the spec: the claimed clamp ranges of the five breakdown
fields (`base` in `[1,30]`, the rest in `[-10,20]`). -/
def breakdownInRange (b : Breakdown) : Prop :=
  fieldInRange b.base 1 30 ∧ fieldInRange b.race (-10) 20 ∧
    fieldInRange b.asi (-10) 20 ∧ fieldInRange b.feat (-10) 20 ∧
    fieldInRange b.magic (-10) 20

/-- A saved payload whose `str.base` is 100: structurally plausible, and the
merge passes the value through without clamping. -/
def oversizedBasePayload : Jval :=
  jobj [("abilityScores", jobj [("str", jobj [("base", jnum 100)])])]

/-- When the saved payload carries neither an `abilityScores` nor a legacy
`abilities` member, every breakdown is the default one. -/
theorem normalize_abilityScores_absent (fs : List (String × Jval)) (k : AbilityKey)
    (h1 : lookupField fs "abilityScores" = none)
    (h2 : lookupField fs "abilities" = none) :
    (normalize (jobj fs)).abilityScores.get k = defaultBreakdown := by
  cases hsteps : loadDataSteps fs with
  | error e =>
    rw [normalize, hsteps]
    cases k <;> rfl
  | ok fs' =>
    rw [normalize_of_steps hsteps]
    have e1 : lookupField fs' "abilityScores" = none := by
      rw [loadDataSteps_preserve hsteps _ (by decide) (by decide) (by decide)]
      exact h1
    have e2 : lookupField fs' "abilities" = none := by
      rw [loadDataSteps_preserve hsteps _ (by decide) (by decide) (by decide)]
      exact h2
    cases hm : mergeWithDefaults (jobj fs') with
    | error e =>
      have hv : validateAndMigrateData (jobj fs') = defaultData := by
        simp [validateAndMigrateData, hm, Except.toOption]
      rw [hv]
      cases k <;> rfl
    | ok doc =>
      have hv : validateAndMigrateData (jobj fs') = doc := by
        simp [validateAndMigrateData, hm, Except.toOption]
      rw [hv]
      rw [mergeWithDefaults] at hm
      cases hns : normalizeSkills (jorElse (jget (jobj fs') "skills") (jarr [])) with
      | error e => rw [hns] at hm; exact absurd hm (by simp)
      | ok sk =>
        rw [hns] at hm
        injection hm with hm
        subst hm
        show (mergeAbilityScores (if otruthy (jget (jobj fs') "abilityScores")
          then jget (jobj fs') "abilityScores" else jget (jobj fs') "abilities")).get k
          = defaultBreakdown
        rw [show jget (jobj fs') "abilityScores" = none from e1,
          show jget (jobj fs') "abilities" = none from e2]
        cases k <;> rfl

/-! ## The claims -/

/-- C1. Migrator idempotence: running the full normalization a second time
on its own (serialized) output changes nothing — `normalize (normalize x)`
deep-equals `normalize x` for every runtime value, in particular for every
object; and the spell-field migration step is a no-op on its second pass. -/
theorem claim_migrator_idempotent :
    (∀ x : Jval, normalize (docToJson (normalize x)) = normalize x) ∧
    (∀ s s' : Jval, migrateSpell s = .ok s' → migrateSpell s' = .ok s') :=
  ⟨fun x => normalize_canonical (normalize x) (canonical_normalize x),
   fun _ _ h => migrateSpell_fix h⟩

theorem claim_migrator_idempotent_witness :
    migrateSpell (jobj [("duration", jstr "1 hour")])
      = .ok (jobj [("duration", jstr "1 hour")]) :=
  claim_migrator_idempotent.2
    (jobj [("concentration", jbool true), ("duration", jstr "1 hour")])
    (jobj [("duration", jstr "1 hour")]) rfl

/-- C3. Ability total invariant: the derived modifier of a breakdown equals
`floor((clamp(base+race+asi+feat+magic, 1, 30) - 10) / 2)`, rendered with a
leading `+` when non-negative; in particular base 16 with race 2 gives
`"+4"`, and a total clamping to 1 gives `"-5"`. -/
theorem claim_ability_total_invariant :
    (∀ base race asi feat magic : Int,
      calculateAbilityModifier (calculateTotalAbilityScore base race asi feat magic)
        = specFormat (specModifier base race asi feat magic)) ∧
    calculateAbilityModifier (calculateTotalAbilityScore 16 2 0 0 0) = "+4" ∧
    calculateAbilityModifier (calculateTotalAbilityScore 3 (-10) 0 0 0) = "-5" :=
  ⟨fun _ _ _ _ _ => rfl, rfl, rfl⟩

/-- C6. Legacy skill-map migration: the keyed map
`{athletics: true, stealth: false}` becomes the two-entry list with ids
`"1"`/`"2"`, table names/abilities and modifier `"+0"`, in key enumeration
order; unknown keys fall back to `name = key`, `ability = "str"`. -/
theorem claim_legacy_skill_map :
    ((normalize (jobj [("skills",
        jobj [("athletics", jbool true), ("stealth", jbool false)])])).skills =
      [⟨some (jstr "1"), some (jstr "Athletics"), jstr "str", jstr "+0"⟩,
       ⟨some (jstr "2"), some (jstr "Stealth"), jstr "dex", jstr "+0"⟩]) ∧
    (skillMapMigrate [("athletics", jbool true), ("stealth", jbool false)] =
      [jobj [("id", jstr "1"), ("name", jstr "Athletics"),
             ("ability", jstr "str"), ("modifier", jstr "+0")],
       jobj [("id", jstr "2"), ("name", jstr "Stealth"),
             ("ability", jstr "dex"), ("modifier", jstr "+0")]]) ∧
    (∀ (i : Nat) (key : String), key ∉ skillNames.map Prod.fst →
      skillMapEntry i key = jobj [("id", jstr (toString (i + 1))),
        ("name", jstr key), ("ability", jstr "str"), ("modifier", jstr "+0")]) := by
  refine ⟨rfl, rfl, ?_⟩
  intro i key hkey
  have hs : lookupStr skillNames key = none := by
    apply lookupStr_eq_none
    intro kv hm hk
    exact hkey (List.mem_map.mpr ⟨kv, hm, hk⟩)
  have hkey2 : key ∉ abilityMap.map Prod.fst := by
    rw [show abilityMap.map Prod.fst = skillNames.map Prod.fst from rfl]
    exact hkey
  have ha : lookupStr abilityMap key = none := by
    apply lookupStr_eq_none
    intro kv hm hk
    exact hkey2 (List.mem_map.mpr ⟨kv, hm, hk⟩)
  rw [skillMapEntry, hs, ha]
  rfl

theorem claim_legacy_skill_map_witness :
    skillMapEntry 0 "piloting" = jobj [("id", jstr "1"), ("name", jstr "piloting"),
      ("ability", jstr "str"), ("modifier", jstr "+0")] :=
  claim_legacy_skill_map.2.2 0 "piloting" (by decide)

/-- C8. Armor-class shield split: with stored base 15 and no shield the
displayed AC is 15; raising the shield shows 17 while the stored base stays
15; lowering it restores 15. Toggling the shield flag never modifies the
stored `armorClass` field. -/
theorem claim_armor_class_shield :
    updateDisplayedArmorClass ⟨15, false⟩ = 15 ∧
    updateDisplayedArmorClass (setShield true ⟨15, false⟩) = 17 ∧
    (setShield true ⟨15, false⟩).armorClass = 15 ∧
    updateDisplayedArmorClass (setShield false (setShield true ⟨15, false⟩)) = 15 ∧
    (∀ (st : CombatAC) (b : Bool), (setShield b st).armorClass = st.armorClass) :=
  ⟨rfl, rfl, rfl, rfl, fun _ _ => rfl⟩

/-- C9. Remote save failure isolation: a rejected `save` leaves the live
document, the history entries and cursor, and the remote-file binding
unchanged; only the status message changes, and the single invocation never
issues more than one save call (no retry). -/
theorem claim_remote_save_failure_isolation :
    ∀ (α : Type) (st : DriveState α) (fallbackName msg : String),
      (saveToGoogleDrive st fallbackName (.error msg)).hist = st.hist ∧
      (saveToGoogleDrive st fallbackName (.error msg)).currentDriveFileId
        = st.currentDriveFileId ∧
      (saveToGoogleDrive st fallbackName (.error msg)).currentDriveFileName
        = st.currentDriveFileName ∧
      (∃ m, (saveToGoogleDrive st fallbackName (.error msg)).status = SaveStatus.error m) ∧
      saveAttempts st ≤ 1 := by
  intro α st fallbackName msg
  by_cases hs : st.signedIn
  · rw [saveToGoogleDrive, if_neg (by simp [hs])]
    exact ⟨rfl, rfl, rfl, ⟨_, rfl⟩, by rw [saveAttempts, if_pos hs]⟩
  · rw [saveToGoogleDrive, if_pos (by simp [hs])]
    exact ⟨rfl, rfl, rfl, ⟨_, rfl⟩, by rw [saveAttempts, if_neg hs]; omega⟩

/-- C2 (counterexample). The claim that every normalized breakdown field is
an integer within its clamp range fails: a saved `str.base` of 100 is
passed through unclamped, outside `[1, 30]`. -/
theorem claim_abilityScores_totality_counterexample :
    (normalize oversizedBasePayload).abilityScores.str.base = jnum 100 ∧
      ¬ breakdownInRange ((normalize oversizedBasePayload).abilityScores.get .str) := by
  refine ⟨rfl, ?_⟩
  intro hr
  obtain ⟨⟨n, hn, h1, h30⟩, _⟩ := hr
  have hbase : (normalize oversizedBasePayload).abilityScores.str.base = jnum 100 := rfl
  have : jnum 100 = jnum n := by
    rw [← hbase]
    exact hn
  injection this with hnn
  omega

/-- C2 (amended). Migrator totality over ability scores, as the code
implements it: for every input and each of the six keys the normalized
breakdown has exactly the five fields `base, race, asi, feat, magic`, each
defined and non-null; when the input supplies no value for the key (under
both the `abilityScores` and the legacy `abilities` member) the fields take
the defaults base 10 / others 0, which do lie within the clamp ranges —
but saved values are passed through without clamping or type checking. -/
theorem claim_abilityScores_totality_amended :
    (∀ (x : Jval) (k : AbilityKey), BreakdownFix ((normalize x).abilityScores.get k)) ∧
    (∀ (x : Jval) (k : AbilityKey),
      keysOf (breakdownToJson ((normalize x).abilityScores.get k))
        = ["base", "race", "asi", "feat", "magic"]) ∧
    (∀ (fs : List (String × Jval)) (k : AbilityKey),
      lookupField fs "abilityScores" = none → lookupField fs "abilities" = none →
      (normalize (jobj fs)).abilityScores.get k = defaultBreakdown) ∧
    breakdownInRange defaultBreakdown := by
  refine ⟨fun x k => (canonical_normalize x).hAbility k, fun x k => rfl,
    fun fs k h1 h2 => normalize_abilityScores_absent fs k h1 h2, ?_⟩
  exact ⟨⟨10, rfl, by omega, by omega⟩, ⟨0, rfl, by omega, by omega⟩,
    ⟨0, rfl, by omega, by omega⟩, ⟨0, rfl, by omega, by omega⟩,
    ⟨0, rfl, by omega, by omega⟩⟩

theorem claim_abilityScores_totality_amended_witness :
    (normalize (jobj [("characterName", jstr "Zoe")])).abilityScores.get .str
      = defaultBreakdown :=
  claim_abilityScores_totality_amended.2.2.1 [("characterName", jstr "Zoe")] .str rfl rfl

/-- C7. Post-migration list-shape invariant: after the Migrator, `weapons`
and `spells` are always arrays (and `skills` serializes as an array); a
`weapons` or `spells` value that is missing or not an array is replaced
with `[]`. -/
theorem claim_list_shape_invariant :
    (∀ x : Jval, (normalize x).weapons.isArr = true ∧ (normalize x).spells.isArr = true ∧
      ∃ l, jget (docToJson (normalize x)) "skills" = some (jarr l)) ∧
    (∀ fs : List (String × Jval),
      (∀ ws, ¬ (lookupField fs "weapons" = some (jarr ws))) →
        (normalize (jobj fs)).weapons = jarr []) ∧
    (∀ fs : List (String × Jval),
      (∀ ss, ¬ (lookupField fs "spells" = some (jarr ss))) →
        (normalize (jobj fs)).spells = jarr []) := by
  refine ⟨?_, ?_, ?_⟩
  · intro x
    obtain ⟨ws, hws⟩ := (canonical_normalize x).hWeapons
    obtain ⟨ss, hss, _⟩ := (canonical_normalize x).hSpells
    exact ⟨by rw [hws]; rfl, by rw [hss]; rfl, ⟨_, rfl⟩⟩
  · intro fs hw
    cases hsteps : loadDataSteps fs with
    | error e => rw [normalize, hsteps]; rfl
    | ok fs' =>
      rw [normalize_of_steps hsteps]
      exact validate_weapons_empty fs' ((loadDataSteps_coerce hsteps).1 hw)
  · intro fs hsp
    cases hsteps : loadDataSteps fs with
    | error e => rw [normalize, hsteps]; rfl
    | ok fs' =>
      rw [normalize_of_steps hsteps]
      exact validate_spells_empty fs' ((loadDataSteps_coerce hsteps).2 hsp)

theorem claim_list_shape_invariant_witness :
    (normalize (jobj [("weapons", jstr "sword")])).weapons = jarr [] ∧
    (normalize (jobj [("spells", jnum 3)])).spells = jarr [] :=
  ⟨claim_list_shape_invariant.2.1 [("weapons", jstr "sword")]
      (fun ws h => by injection h with h; cases h),
   claim_list_shape_invariant.2.2 [("spells", jnum 3)]
      (fun ss h => by injection h with h; cases h)⟩

/-- C10. Implicit skill-entry repair: every normalized skill entry has a
truthy `ability` and a non-null `modifier`; `normalizeSkills` keeps a
defined (non-nullish) `modifier` and a truthy `ability` and otherwise
substitutes `"+0"` / `"str"`, while `id` and `name` are passed through
verbatim. -/
theorem claim_skill_entry_repair :
    (∀ x : Jval, ∀ e ∈ (normalize x).skills,
      truthy e.ability = true ∧ e.modifier.isNull = false) ∧
    (∀ (s : Jval) (e : SkillEntry), normalizeSkillEntry s = .ok e →
      e.id = jget s "id" ∧ e.name = jget s "name" ∧
      (∀ v, jget s "ability" = some v → truthy v = true → e.ability = v) ∧
      (otruthy (jget s "ability") = false → e.ability = jstr "str") ∧
      (∀ v, jget s "modifier" = some v → v.isNull = false → e.modifier = v) ∧
      (nullishO (jget s "modifier") = true → e.modifier = jstr "+0")) := by
  constructor
  · intro x e he
    exact (canonical_normalize x).hSkills e he
  · intro s e h
    rw [normalizeSkillEntry] at h
    cases hg : jgetE s "id" with
    | error er => rw [hg] at h; exact absurd h (by simp)
    | ok i =>
      rw [hg] at h
      injection h with h
      subst h
      have hid : i = jget s "id" := by
        cases s with
        | jnull => exact absurd hg (by simp [jgetE])
        | jobj fs => injection hg with hg; exact hg.symm
        | jbool b => injection hg with hg; exact hg.symm
        | jnum n => injection hg with hg; exact hg.symm
        | jstr st => injection hg with hg; exact hg.symm
        | jarr xs => injection hg with hg; exact hg.symm
      refine ⟨hid, rfl, ?_, ?_, ?_, ?_⟩
      · intro v hv htr
        show jorElse (jget s "ability") (jstr "str") = v
        rw [hv]
        exact jorElse_of_truthy _ htr
      · intro hfa
        show jorElse (jget s "ability") (jstr "str") = jstr "str"
        cases hv : jget s "ability" with
        | none => rfl
        | some v =>
          rw [hv] at hfa
          show (if truthy v then v else jstr "str") = jstr "str"
          rw [if_neg (by rw [show otruthy (some v) = truthy v from rfl] at hfa; simp [hfa])]
      · intro v hv hnn
        show jnullish (jget s "modifier") (jstr "+0") = v
        rw [hv]
        exact jnullish_of_not_null _ hnn
      · intro hna
        show jnullish (jget s "modifier") (jstr "+0") = jstr "+0"
        cases hv : jget s "modifier" with
        | none => rfl
        | some v =>
          rw [hv] at hna
          show (if v.isNull then jstr "+0" else v) = jstr "+0"
          rw [if_pos (by simpa [nullishO] using hna)]

theorem claim_skill_entry_repair_witness :
    (⟨some (jstr "9"), none, jstr "str", jstr "+0"⟩ : SkillEntry).id
      = jget (jobj [("id", jstr "9")]) "id" :=
  (claim_skill_entry_repair.2 (jobj [("id", jstr "9")])
    ⟨some (jstr "9"), none, jstr "str", jstr "+0"⟩ rfl).1

/-- A push never leaves more than `MAX_HISTORY` snapshots (assuming the
bound held before, as it always does for engine states). -/
theorem pushHistory_bound (s : HistSt α) (h : s.history.length ≤ MAX_HISTORY) :
    (pushHistory s).history.length ≤ MAX_HISTORY := by
  have hlen : (s.history.take (s.historyIndex + 1).toNat ++ [s.data]).length
      ≤ MAX_HISTORY + 1 := by
    rw [List.length_append, List.length_take]
    simp only [List.length_singleton]
    omega
  show (if (s.history.take (s.historyIndex + 1).toNat ++ [s.data]).length > MAX_HISTORY
    then (⟨s.data, (s.history.take (s.historyIndex + 1).toNat ++ [s.data]).drop 1,
      s.historyIndex + 1 - 1⟩ : HistSt α)
    else ⟨s.data, s.history.take (s.historyIndex + 1).toNat ++ [s.data],
      s.historyIndex + 1⟩).history.length ≤ MAX_HISTORY
  by_cases hc : (s.history.take (s.historyIndex + 1).toNat ++ [s.data]).length > MAX_HISTORY
  · rw [if_pos hc]
    show ((s.history.take (s.historyIndex + 1).toNat ++ [s.data]).drop 1).length
      ≤ MAX_HISTORY
    rw [List.length_drop]
    omega
  · rw [if_neg hc]
    show (s.history.take (s.historyIndex + 1).toNat ++ [s.data]).length ≤ MAX_HISTORY
    omega

/-- A push at capacity (cursor at the top, stack full) drops exactly the
oldest entry and leaves the cursor where it was (advance then decrement). -/
theorem pushHistory_atCap (s : HistSt α) (h0 : 0 ≤ s.historyIndex)
    (hlen : s.history.length = MAX_HISTORY)
    (htop : s.historyIndex = (s.history.length : Int) - 1) :
    pushHistory s = ⟨s.data, s.history.drop 1 ++ [s.data], s.historyIndex⟩ := by
  have h1 : (s.historyIndex + 1).toNat = s.history.length := by omega
  have htake : s.history.take (s.historyIndex + 1).toNat = s.history := by
    rw [h1]; exact List.take_length _
  show (if (s.history.take (s.historyIndex + 1).toNat ++ [s.data]).length > MAX_HISTORY
    then (⟨s.data, (s.history.take (s.historyIndex + 1).toNat ++ [s.data]).drop 1,
      s.historyIndex + 1 - 1⟩ : HistSt α)
    else ⟨s.data, s.history.take (s.historyIndex + 1).toNat ++ [s.data],
      s.historyIndex + 1⟩) = _
  rw [htake]
  rw [if_pos (by rw [List.length_append, hlen]; simp)]
  rw [HistSt.mk.injEq]
  refine ⟨rfl, ?_, by omega⟩
  rw [List.drop_append_of_le_length (by omega : 1 ≤ s.history.length)]

/-- C5. History bounds with oldest-first eviction: the stack never exceeds
`MAX_HISTORY` (50); a push at capacity drops exactly the oldest entry and
decrements the cursor back to its pre-push value; and 60 sequential
immediate pushes from an empty history leave 50 entries whose oldest is the
11th pushed one, with the cursor at 49. -/
theorem claim_history_bounds :
    (∀ (α : Type) (s : HistSt α), s.history.length ≤ MAX_HISTORY →
      (pushHistory s).history.length ≤ MAX_HISTORY) ∧
    (∀ (α : Type) (s : HistSt α), 0 ≤ s.historyIndex →
      s.history.length = MAX_HISTORY →
      s.historyIndex = (s.history.length : Int) - 1 →
      pushHistory s = ⟨s.data, s.history.drop 1 ++ [s.data], s.historyIndex⟩) ∧
    ((pushAll (⟨0, [], -1⟩ : HistSt Nat) ((List.range 60).map fun k => k + 1)).history.length
        = MAX_HISTORY ∧
      (pushAll (⟨0, [], -1⟩ : HistSt Nat) ((List.range 60).map fun k => k + 1)).history.head?
        = some 11 ∧
      (pushAll (⟨0, [], -1⟩ : HistSt Nat) ((List.range 60).map fun k => k + 1)).historyIndex
        = 49) := by
  refine ⟨fun α s h => pushHistory_bound s h,
    fun α s h0 hlen htop => pushHistory_atCap s h0 hlen htop, ?_, ?_, ?_⟩
  · set_option maxRecDepth 4000 in decide
  · set_option maxRecDepth 4000 in decide
  · set_option maxRecDepth 4000 in decide

theorem claim_history_bounds_witness :
    (pushHistory (⟨7, [7], 0⟩ : HistSt Nat)).history.length ≤ MAX_HISTORY ∧
    pushHistory (⟨99, List.range 50, 49⟩ : HistSt Nat)
      = ⟨99, (List.range 50).drop 1 ++ [99], 49⟩ :=
  ⟨claim_history_bounds.1 Nat ⟨7, [7], 0⟩ (by decide),
   claim_history_bounds.2.1 Nat ⟨99, List.range 50, 49⟩ (by decide) (by decide) (by decide)⟩

/-- C4. Undo/redo round-trip: from any reachable engine state, N pushes
(the first snapshotting the still-unchanged live document, later ones the
document after intervening edits) followed by N undos restore the live
document from before the first push; and N undos followed by N redos with
no intervening push restore the document from before the undos.
(Preconditions: no eviction at `MAX_HISTORY`, and the undos/redos stay
within the stack bounds.) -/
theorem claim_undo_redo_roundTrip :
    (∀ (α : Type) (s : HistSt α) (vs : List α), histInv s →
      s.historyIndex.toNat + 2 + vs.length ≤ MAX_HISTORY →
      (undo^[vs.length + 1] (pushAll s (s.data :: vs))).data = s.data) ∧
    (∀ (α : Type) (s : HistSt α) (n : Nat), histInv s → (n : Int) ≤ s.historyIndex →
      (redo^[n] (undo^[n] s)).data = s.data) := by
  constructor
  · intro α s vs hinv hcap
    obtain ⟨hi0, hilt, hidata⟩ := hinv
    have htklen : (s.history.take (s.historyIndex.toNat + 1)).length
        = s.historyIndex.toNat + 1 := by
      rw [List.length_take]
      omega
    have hpush : pushHistory s = ⟨s.data, s.history.take (s.historyIndex.toNat + 1)
        ++ [s.data], s.historyIndex + 1⟩ :=
      pushHistory_noEvict s hi0 (by omega)
    have hchain : pushAll s (s.data :: vs) = pushAll (pushHistory s) vs := rfl
    have htop : (⟨s.data, s.history.take (s.historyIndex.toNat + 1) ++ [s.data],
        s.historyIndex + 1⟩ : HistSt α).historyIndex
        = ((⟨s.data, s.history.take (s.historyIndex.toNat + 1) ++ [s.data],
          s.historyIndex + 1⟩ : HistSt α).history.length : Int) - 1 := by
      show s.historyIndex + 1
        = ((s.history.take (s.historyIndex.toNat + 1) ++ [s.data]).length : Int) - 1
      rw [List.length_append, htklen]
      simp only [List.length_singleton]
      push_cast
      omega
    have hcap2 : (⟨s.data, s.history.take (s.historyIndex.toNat + 1) ++ [s.data],
        s.historyIndex + 1⟩ : HistSt α).history.length + vs.length ≤ MAX_HISTORY := by
      show (s.history.take (s.historyIndex.toNat + 1) ++ [s.data]).length + vs.length
        ≤ MAX_HISTORY
      rw [List.length_append, htklen]
      simp only [List.length_singleton]
      omega
    have hL : (s.history.take (s.historyIndex.toNat + 1) ++ [s.data]) ++ vs
        = s.history.take (s.historyIndex.toNat + 1) ++ (s.data :: vs) := by
      rw [List.append_assoc]
      rfl
    have hAll : pushAll s (s.data :: vs)
        = ⟨vs.getLastD s.data,
            s.history.take (s.historyIndex.toNat + 1) ++ (s.data :: vs),
            s.historyIndex + 1 + vs.length⟩ := by
      rw [hchain, hpush, pushAll_top vs _ htop hcap2]
      rw [HistSt.mk.injEq]
      exact ⟨rfl, hL, rfl⟩
    rw [hAll]
    have hinvT : histInv (⟨vs.getLastD s.data,
        s.history.take (s.historyIndex.toNat + 1) ++ (s.data :: vs),
        s.historyIndex + 1 + vs.length⟩ : HistSt α) := by
      refine ⟨?_, ?_, ?_⟩
      · show 0 ≤ s.historyIndex + 1 + (vs.length : Int)
        omega
      · show s.historyIndex + 1 + (vs.length : Int)
          < ((s.history.take (s.historyIndex.toNat + 1) ++ (s.data :: vs)).length : Int)
        rw [List.length_append, htklen]
        simp only [List.length_cons]
        push_cast
        omega
      · show (s.history.take (s.historyIndex.toNat + 1) ++ (s.data :: vs)).get?
          (s.historyIndex + 1 + (vs.length : Int)).toNat = some (vs.getLastD s.data)
        have hidx : (s.historyIndex + 1 + (vs.length : Int)).toNat
            = s.historyIndex.toNat + 1 + vs.length := by omega
        rw [hidx]
        rw [List.get?_append_right (by rw [htklen]; omega)]
        have harg : s.historyIndex.toNat + 1 + vs.length
            - (s.history.take (s.historyIndex.toNat + 1)).length = vs.length := by
          rw [htklen]
          omega
        rw [harg]
        exact get?_length_cons vs s.data
    have hk : ((vs.length + 1 : Nat) : Int)
        ≤ (⟨vs.getLastD s.data,
            s.history.take (s.historyIndex.toNat + 1) ++ (s.data :: vs),
            s.historyIndex + 1 + vs.length⟩ : HistSt α).historyIndex := by
      show ((vs.length + 1 : Nat) : Int) ≤ s.historyIndex + 1 + (vs.length : Int)
      push_cast
      omega
    obtain ⟨ha, hb, hc⟩ := undoN_spec (vs.length + 1)
      ⟨vs.getLastD s.data,
        s.history.take (s.historyIndex.toNat + 1) ++ (s.data :: vs),
        s.historyIndex + 1 + vs.length⟩ hinvT hk
    have hc2 : (s.history.take (s.historyIndex.toNat + 1) ++ (s.data :: vs)).get?
        ((s.historyIndex + 1 + (vs.length : Int) - ((vs.length + 1 : Nat) : Int)).toNat)
        = some ((undo^[vs.length + 1]
          (⟨vs.getLastD s.data,
            s.history.take (s.historyIndex.toNat + 1) ++ (s.data :: vs),
            s.historyIndex + 1 + vs.length⟩ : HistSt α)).data) := hc
    have hidx2 : (s.historyIndex + 1 + (vs.length : Int) - ((vs.length + 1 : Nat) : Int))
        = s.historyIndex := by
      push_cast
      omega
    rw [hidx2] at hc2
    have hget : (s.history.take (s.historyIndex.toNat + 1) ++ (s.data :: vs)).get?
        s.historyIndex.toNat = some s.data := by
      rw [List.get?_append (by rw [htklen]; omega)]
      rw [List.get?_take (by omega : s.historyIndex.toNat < s.historyIndex.toNat + 1)]
      exact hidata
    rw [hget] at hc2
    injection hc2 with hc2
    exact hc2.symm
  · intro α s n hinv hk
    obtain ⟨ha, hb, hc⟩ := undoN_spec n s hinv hk
    have hinvU : histInv (undo^[n] s) := by
      refine ⟨?_, ?_, ?_⟩
      · rw [hb]; omega
      · rw [hb, ha]
        have := hinv.2.1
        omega
      · rw [hb, ha]
        exact hc
    have hk2 : (undo^[n] s).historyIndex + (n : Int)
        ≤ ((undo^[n] s).history.length : Int) - 1 := by
      rw [hb, ha]
      have := hinv.2.1
      omega
    obtain ⟨ra, rb, rc⟩ := redoN_spec n (undo^[n] s) hinvU hk2
    rw [ha, hb] at rc
    have hidx : (s.historyIndex - (n : Int) + (n : Int)) = s.historyIndex := by omega
    rw [hidx] at rc
    rw [hinv.2.2] at rc
    injection rc with rc
    exact rc.symm

theorem claim_undo_redo_roundTrip_witness :
    (undo^[2] (pushAll (⟨5, [5], 0⟩ : HistSt Nat) (5 :: [7]))).data = 5 ∧
    (redo^[1] (undo^[1] (⟨9, [5, 9], 1⟩ : HistSt Nat))).data = 9 :=
  ⟨claim_undo_redo_roundTrip.1 Nat ⟨5, [5], 0⟩ [7] ⟨by decide, by decide, by decide⟩
      (by decide),
   claim_undo_redo_roundTrip.2 Nat ⟨9, [5, 9], 1⟩ 1 ⟨by decide, by decide, by decide⟩
      (by decide)⟩

end DndSheet
